import Mathlib

/-!
Verification of the PatientMap knowledge-graph engine
(`src/patientmap/tools/kg_tools.py`).

The module under study maintains a directed property graph (a NetworkX
`DiGraph`) whose nodes and edges carry open dictionaries of attributes.
We embed the graph state and the tool operations shallowly:

* `Value` models the JSON-compatible Python values stored in attribute
  dictionaries (strings, integers, booleans, `None`, lists, dicts).
* `Attrs` models a Python `dict[str, Value]`: an association list with
  unique keys, insertion-ordered, with `dget`/`dset`/`dmerge` mirroring
  `d[k]`, `d[k] = v` and `d.update(...)`.
* `Graph` models `nx.DiGraph`: insertion-ordered node and edge lists,
  at most one edge per ordered pair, `addNode`/`addEdge` with NetworkX's
  attribute-merging upsert semantics.

The tool functions from `kg_tools.py` are then translated one by one on
top of this state, and the specification claims are proved or refuted
against those translations.
-/

set_option maxRecDepth 10000

namespace PatientMap

/-- JSON-compatible Python attribute values.  The attribute bags built by
`kg_tools.py` hold strings, numbers, booleans, `None` and lists of strings
(symptoms, authors, keywords, conditions, interventions); the spec's data
model (§3) lists exactly these shapes. -/
inductive Value where
  | str : String → Value
  | int : Int → Value
  | bool : Bool → Value
  | null : Value
  | strList : List String → Value
  deriving DecidableEq, Repr

/-- A Python `dict[str, ...]`: insertion-ordered association list with
unique keys (uniqueness is maintained by `dset`). -/
abbrev Attrs := List (String × Value)

/-- `d.get(k)` on a Python dict: the value at the first (with unique keys,
the only) occurrence of the key. -/
def dget (d : Attrs) (k : String) : Option Value :=
  match d with
  | [] => none
  | (k1, v1) :: t => if k1 == k then some v1 else dget t k

/-- `d[k] = v` on a Python dict: replaces the value in place if the key
exists (keeping its position), otherwise appends the new pair. -/
def dset (d : Attrs) (k : String) (v : Value) : Attrs :=
  match d with
  | [] => [(k, v)]
  | (k1, v1) :: t => if k1 == k then (k, v) :: t else (k1, v1) :: dset t k v

/-- `d.update(d2)` on a Python dict. -/
def dmerge (d d2 : Attrs) : Attrs :=
  d2.foldl (fun acc p => dset acc p.1 p.2) d

/-- `list(d.keys())` on a Python dict. -/
def dkeys (d : Attrs) : List String := d.map Prod.fst

/-- `k in d` on a Python dict. -/
def dhas (d : Attrs) (k : String) : Bool :=
  match d with
  | [] => false
  | (k1, _) :: t => k1 == k || dhas t k

/-- `{k: v for k, v in d.items() if k != k0}` (used by `node_link_graph`). -/
def dstrip (d : Attrs) (k0 : String) : Attrs := d.filter (fun p => p.1 != k0)

/-- The in-memory state of `nx.DiGraph`: nodes and directed edges in
insertion order, each carrying an attribute dict.  The edge list holds at
most one edge per ordered pair of endpoints. -/
structure Graph where
  nodes : List (String × Attrs)
  edges : List (String × String × Attrs)
  deriving DecidableEq, Repr

namespace Graph

/-- `G.has_node(n)` / `n in G`. -/
def hasNode (g : Graph) (n : String) : Bool :=
  g.nodes.any (fun p => p.1 == n)

/-- Attribute dict of a node (`G.nodes[n]`), empty if the node is absent. -/
def nodeAttrs (g : Graph) (n : String) : Attrs :=
  ((g.nodes.find? (fun p => p.1 == n)).map Prod.snd).getD []

/-- `G.has_edge(u, v)`. -/
def hasEdge (g : Graph) (u v : String) : Bool :=
  g.edges.any (fun e => e.1 == u && e.2.1 == v)

/-- Attribute dict of an edge (`G.get_edge_data(u, v)`), empty if absent. -/
def edgeAttrs (g : Graph) (u v : String) : Attrs :=
  ((g.edges.find? (fun e => e.1 == u && e.2.1 == v)).map Prod.snd).map Prod.snd |>.getD []

/-- `G.add_node(n, **attrs)`: appends a fresh node, or updates the
existing node's attribute dict in place (NetworkX upsert semantics). -/
def addNode (g : Graph) (n : String) (attrs : Attrs) : Graph :=
  if g.hasNode n then
    { g with nodes := g.nodes.map (fun p => if p.1 == n then (n, dmerge p.2 attrs) else p) }
  else
    { g with nodes := g.nodes ++ [(n, attrs)] }

/-- `G.add_edge(u, v, **attrs)`: silently creates missing endpoints, then
appends a fresh edge or updates the existing edge's attributes. -/
def addEdge (g : Graph) (u v : String) (attrs : Attrs) : Graph :=
  let g1 := if g.hasNode u then g else { g with nodes := g.nodes ++ [(u, [])] }
  let g2 := if g1.hasNode v then g1 else { g1 with nodes := g1.nodes ++ [(v, [])] }
  if g2.hasEdge u v then
    { g2 with edges := g2.edges.map (fun e =>
        if e.1 == u && e.2.1 == v then (u, v, dmerge e.2.2 attrs) else e) }
  else
    { g2 with edges := g2.edges ++ [(u, v, attrs)] }

/-- `G.remove_node(n)`: drops the node and every incident edge. -/
def removeNode (g : Graph) (n : String) : Graph :=
  { nodes := g.nodes.filter (fun p => p.1 != n),
    edges := g.edges.filter (fun e => e.1 != n && e.2.1 != n) }

/-- `G.remove_edge(u, v)`. -/
def removeEdge (g : Graph) (u v : String) : Graph :=
  { g with edges := g.edges.filter (fun e => !(e.1 == u && e.2.1 == v)) }

/-- `G.number_of_nodes()`. -/
def numNodes (g : Graph) : Nat := g.nodes.length

/-- `G.number_of_edges()`. -/
def numEdges (g : Graph) : Nat := g.edges.length

/-- `list(G.nodes())`: node ids in insertion order. -/
def nodeIds (g : Graph) : List String := g.nodes.map Prod.fst

/-- `list(G.in_edges(n))` as (source, target) pairs. -/
def inEdges (g : Graph) (n : String) : List (String × String) :=
  (g.edges.filter (fun e => e.2.1 == n)).map (fun e => (e.1, e.2.1))

/-- `list(G.out_edges(n))` as (source, target) pairs. -/
def outEdges (g : Graph) (n : String) : List (String × String) :=
  (g.edges.filter (fun e => e.1 == n)).map (fun e => (e.1, e.2.1))

/-- `list(G.predecessors(n))`. -/
def preds (g : Graph) (n : String) : List String :=
  (g.edges.filter (fun e => e.2.1 == n)).map (fun e => e.1)

/-- `list(G.successors(n))` = `list(G.neighbors(n))` on a `DiGraph`. -/
def succs (g : Graph) (n : String) : List String :=
  (g.edges.filter (fun e => e.1 == n)).map (fun e => e.2.1)

/-- `G.in_degree(n)`. -/
def inDegree (g : Graph) (n : String) : Nat :=
  (g.edges.filter (fun e => e.2.1 == n)).length

/-- `G.out_degree(n)`. -/
def outDegree (g : Graph) (n : String) : Nat :=
  (g.edges.filter (fun e => e.1 == n)).length

/-- `G.degree(n)` (a self-loop contributes 2, as in NetworkX). -/
def degree (g : Graph) (n : String) : Nat :=
  g.inDegree n + g.outDegree n

/-- The empty `nx.DiGraph()`. -/
def empty : Graph := { nodes := [], edges := [] }

end Graph

/-! ### Shared helpers for the tool layer -/

/-- Python `repr` of a list of strings, as interpolated into f-strings. -/
def pyReprStrList (l : List String) : String :=
  "[" ++ String.intercalate ", " (l.map (fun s => "'" ++ s ++ "'")) ++ "]"

/-- `str(value)` for a Python value interpolated into a message. -/
def pyStr : Value → String
  | Value.str s => s
  | Value.int n => toString n
  | Value.bool b => if b then "True" else "False"
  | Value.null => "None"
  | Value.strList l => pyReprStrList l

/-- Python truthiness of `d.get(k)` (`if not graph.nodes[n].get('label')`). -/
def valFalsy : Option Value → Bool
  | none => true
  | some Value.null => true
  | some (Value.str s) => s == ""
  | some (Value.int n) => n == 0
  | some (Value.bool b) => !b
  | some (Value.strList l) => l.isEmpty

/-- The not-initialized error of the mutation tools. -/
def notInitializedMsg : String :=
  "Error: Knowledge graph not initialized. Call initialize_patient_graph first."

/-- The not-initialized error of the query tools. -/
def notInitializedShort : String := "Error: Knowledge graph not initialized."

/-! ### Graph initialization and management (`kg_tools.py` lines 40-344)

Each tool reads the graph out of the session state and writes it back
(`_get_graph` / `_save_graph`); we model a tool directly as a function from
the graph state to (returned message, new graph state). -/

/-- `initialize_patient_graph` (lines 40-67). -/
def initialize_patient_graph (g : Graph) (patient_id patient_name : String) :
    String × Graph :=
  let g' := g.addNode patient_id
    [("node_type", Value.str "patient"), ("name", Value.str patient_name),
     ("label", Value.str ("Patient: " ++ patient_name))]
  ("Initialized knowledge graph with patient node: " ++ patient_id ++
     " (" ++ patient_name ++ ")", g')

/-- The node attribute dict assembled by `add_node` and
`bulk_add_nodes`: `node_type` and `label`, then `attrs.update(properties)`
when `properties` is truthy (lines 94-100). -/
def nodeToolAttrs (node_type label : String) (properties : Attrs) : Attrs :=
  let attrs : Attrs := [("node_type", Value.str node_type), ("label", Value.str label)]
  if properties.isEmpty then attrs else dmerge attrs properties

/-- The edge attribute dict assembled by `add_relationship` and
`bulk_add_relationships` (lines 235-238). -/
def relToolAttrs (relationship_type : String) (properties : Attrs) : Attrs :=
  let attrs : Attrs := [("relationship_type", Value.str relationship_type)]
  if properties.isEmpty then attrs else dmerge attrs properties

/-- `add_node` (lines 70-105). -/
def add_node (g : Graph) (node_id node_type label : String) (properties : Attrs) :
    String × Graph :=
  if g.numNodes == 0 then (notInitializedMsg, g)
  else
    ("Added " ++ node_type ++ " node: " ++ node_id ++ " - " ++ label,
     g.addNode node_id (nodeToolAttrs node_type label properties))

/-- One entry of the `nodes` argument of `bulk_add_nodes`: a Python dict
whose required keys may be missing (`'node_id' in node_data`), with
`properties` defaulting to the empty dict. -/
structure NodeSpec where
  node_id : Option String
  node_type : Option String
  label : Option String
  properties : Attrs
  deriving DecidableEq, Repr

/-- State threaded through the `bulk_add_nodes` loop. -/
structure BulkNodesAcc where
  graph : Graph
  added_nodes : List String
  errors : List String
  deriving Repr

/-- One iteration of the `bulk_add_nodes` loop (lines 152-183). -/
def bulk_add_nodes_step (acc : BulkNodesAcc) (ie : Nat × NodeSpec) : BulkNodesAcc :=
  let i := ie.1
  let nd := ie.2
  match nd.node_id with
  | none =>
    { acc with errors := acc.errors ++
        ["Node " ++ toString i ++ ": Missing required field 'node_id'"] }
  | some node_id =>
    match nd.node_type with
    | none =>
      { acc with errors := acc.errors ++
          ["Node " ++ toString i ++ ": Missing required field 'node_type'"] }
    | some node_type =>
      match nd.label with
      | none =>
        { acc with errors := acc.errors ++
            ["Node " ++ toString i ++ ": Missing required field 'label'"] }
      | some label =>
        { acc with
            graph := acc.graph.addNode node_id (nodeToolAttrs node_type label nd.properties),
            added_nodes := acc.added_nodes ++
              [node_type ++ ": " ++ label ++ " (" ++ node_id ++ ")"] }

/-- The validation/addition loop of `bulk_add_nodes` over the enumerated
entries. -/
def bulk_add_nodes_core (g : Graph) (nodes : List NodeSpec) : BulkNodesAcc :=
  nodes.enum.foldl bulk_add_nodes_step { graph := g, added_nodes := [], errors := [] }

/-- Result-message assembly shared by the two bulk tools (lines 188-205 and
327-344): header, first 10 successes, first 5 errors. -/
def bulkResultMessage (header okHeader : String) (oks : List String)
    (errors : List String) : String :=
  let parts := [header]
  let parts := if oks.isEmpty then parts else
    parts ++ [okHeader] ++ (oks.take 10).map (fun s => "  - " ++ s) ++
      (if oks.length > 10 then
        ["  ... and " ++ toString (oks.length - 10) ++ " more"] else [])
  let parts := if errors.isEmpty then parts else
    parts ++ ["\n" ++ toString errors.length ++ " errors encountered:"] ++
      (errors.take 5).map (fun s => "  - " ++ s) ++
      (if errors.length > 5 then
        ["  ... and " ++ toString (errors.length - 5) ++ " more errors"] else [])
  String.intercalate "\n" parts

/-- `bulk_add_nodes` (lines 108-205). -/
def bulk_add_nodes (g : Graph) (nodes : List NodeSpec) : String × Graph :=
  if g.numNodes == 0 then (notInitializedMsg, g)
  else
    let acc := bulk_add_nodes_core g nodes
    (bulkResultMessage
      ("Successfully added " ++ toString acc.added_nodes.length ++
        " nodes to the knowledge graph.")
      "\nNodes added:" acc.added_nodes acc.errors, acc.graph)

/-- `add_relationship` (lines 208-243). -/
def add_relationship (g : Graph) (source_id target_id relationship_type : String)
    (properties : Attrs) : String × Graph :=
  if !g.hasNode source_id then
    ("Error: Source node '" ++ source_id ++ "' does not exist in the graph.", g)
  else if !g.hasNode target_id then
    ("Error: Target node '" ++ target_id ++ "' does not exist in the graph.", g)
  else
    ("Added relationship: " ++ source_id ++ " --[" ++ relationship_type ++ "]--> " ++
       target_id,
     g.addEdge source_id target_id (relToolAttrs relationship_type properties))

/-- One entry of the `relationships` argument of `bulk_add_relationships`. -/
structure RelSpec where
  source_id : Option String
  target_id : Option String
  relationship_type : Option String
  properties : Attrs
  deriving DecidableEq, Repr

/-- State threaded through the `bulk_add_relationships` loop. -/
structure BulkRelsAcc where
  graph : Graph
  added_relationships : List String
  errors : List String
  deriving Repr

/-- One iteration of the `bulk_add_relationships` loop (lines 286-322).
There is no initialization guard in this tool: on an empty graph every
entry fails its endpoint-existence check instead. -/
def bulk_add_relationships_step (acc : BulkRelsAcc) (ie : Nat × RelSpec) :
    BulkRelsAcc :=
  let i := ie.1
  let rd := ie.2
  match rd.source_id with
  | none =>
    { acc with errors := acc.errors ++
        ["Relationship " ++ toString i ++ ": Missing required field 'source_id'"] }
  | some source_id =>
    match rd.target_id with
    | none =>
      { acc with errors := acc.errors ++
          ["Relationship " ++ toString i ++ ": Missing required field 'target_id'"] }
    | some target_id =>
      match rd.relationship_type with
      | none =>
        { acc with errors := acc.errors ++
            ["Relationship " ++ toString i ++
              ": Missing required field 'relationship_type'"] }
      | some relationship_type =>
        if !acc.graph.hasNode source_id then
          { acc with errors := acc.errors ++
              ["Relationship " ++ toString i ++ ": Source node '" ++ source_id ++
                "' does not exist"] }
        else if !acc.graph.hasNode target_id then
          { acc with errors := acc.errors ++
              ["Relationship " ++ toString i ++ ": Target node '" ++ target_id ++
                "' does not exist"] }
        else
          { acc with
              graph := acc.graph.addEdge source_id target_id
                (relToolAttrs relationship_type rd.properties),
              added_relationships := acc.added_relationships ++
                [source_id ++ " --[" ++ relationship_type ++ "]--> " ++ target_id] }

/-- The loop of `bulk_add_relationships` over the enumerated entries. -/
def bulk_add_relationships_core (g : Graph) (relationships : List RelSpec) :
    BulkRelsAcc :=
  relationships.enum.foldl bulk_add_relationships_step
    { graph := g, added_relationships := [], errors := [] }

/-- `bulk_add_relationships` (lines 246-344). -/
def bulk_add_relationships (g : Graph) (relationships : List RelSpec) :
    String × Graph :=
  let acc := bulk_add_relationships_core g relationships
  (bulkResultMessage
    ("Successfully added " ++ toString acc.added_relationships.length ++
      " relationships to the knowledge graph.")
    "\nRelationships added:" acc.added_relationships acc.errors, acc.graph)

/-- `condition_name.lower().replace(' ', '_')` (line 368), written
character by character: spaces become underscores, upper-case ASCII
letters become lower case. -/
def pyLowerReplace (s : String) : String :=
  String.mk (s.data.map (fun c =>
    if c = ' ' then '_'
    else if 65 ≤ c.toNat ∧ c.toNat ≤ 90 then Char.ofNat (c.toNat + 32)
    else c))

/-- The condition node id derived by `add_patient_condition` (line 368). -/
def condition_id_of (condition_name : String) : String :=
  "condition_" ++ pyLowerReplace condition_name

/-- The condition properties assembled by `add_patient_condition`
(lines 371-375): `icd_code` and `symptoms` added only when truthy. -/
def conditionProps (icd_code : Option String) (symptoms : Option (List String)) :
    Attrs :=
  let properties : Attrs := []
  let properties := match icd_code with
    | some c => if c != "" then properties ++ [("icd_code", Value.str c)] else properties
    | none => properties
  match symptoms with
  | some sy => if !sy.isEmpty then properties ++ [("symptoms", Value.strList sy)]
               else properties
  | none => properties

/-- `add_patient_condition` (lines 349-393): adds the condition node via
`add_node`, then links it via `add_relationship`, concatenating the two
messages.  Note the node is added before the patient's existence is ever
checked. -/
def add_patient_condition (g : Graph) (patient_id condition_name : String)
    (icd_code : Option String) (symptoms : Option (List String)) : String × Graph :=
  let condition_id := condition_id_of condition_name
  let r1 := add_node g condition_id "condition" condition_name
    (conditionProps icd_code symptoms)
  let r2 := add_relationship r1.2 patient_id condition_id "HAS_CONDITION" []
  (r1.1 ++ "\n" ++ r2.1, r2.2)

/-! ### Reachability (the NetworkX library calls)

`kg_tools.py` calls `nx.is_weakly_connected`, `nx.number_weakly_connected_components`,
`nx.descendants` and `nx.shortest_path_length`.  We model them by breadth
saturation over a neighbor function: `iterStep nf n {x}` is the set of
nodes reachable from `x` in at most `n` steps, and enough fuel saturates
it into the full reachable set. -/

/-- One breadth step: a set together with all its neighbors. -/
def stepSet (nf : String → List String) (s : Finset String) : Finset String :=
  s ∪ s.biUnion (fun x => (nf x).toFinset)

/-- `n`-fold iteration of `stepSet`: everything reachable in `≤ n` steps. -/
def iterStep (nf : String → List String) : Nat → Finset String → Finset String
  | 0, s => s
  | n + 1, s => stepSet nf (iterStep nf n s)

namespace Graph

/-- Undirected adjacency, for the weakly-connected view of the graph. -/
def adjU (g : Graph) (x : String) : List String := g.succs x ++ g.preds x

/-- Enough breadth steps to saturate any traversal of `g`: every step that
adds anything adds an edge endpoint, of which there are at most `2·|E|`. -/
def closureFuel (g : Graph) : Nat := 2 * g.edges.length + 1

/-- The weakly-connected component of `x` (the set NetworkX's
`weakly_connected_components` would yield for `x`). -/
def wkComponent (g : Graph) (x : String) : Finset String :=
  iterStep g.adjU g.closureFuel {x}

/-- `nx.is_weakly_connected(G)`: the component of the first node holds
every node.  (NetworkX raises on an empty graph; every call site is
guarded by the emptiness check, so the `[]` branch is never reached.) -/
def is_weakly_connected (g : Graph) : Bool :=
  match g.nodes with
  | [] => false
  | p :: _ => g.nodeIds.all (fun n => decide (n ∈ g.wkComponent p.1))

/-- `nx.number_weakly_connected_components(G)`: scan the nodes in order,
opening a new component for each node not yet covered. -/
def number_weakly_connected_components (g : Graph) : Nat :=
  (g.nodeIds.foldl
    (fun acc n => if n ∈ acc.1 then acc else (acc.1 ∪ g.wkComponent n, acc.2 + 1))
    ((∅ : Finset String), 0)).2

/-- `nx.descendants(G, x)`: all nodes reachable from `x` by directed
traversal, `x` itself excluded. -/
def descendants (g : Graph) (x : String) : Finset String :=
  (iterStep g.succs g.closureFuel {x}).erase x

/-- `nx.shortest_path_length(G, x, y)`: the least number of steps whose
breadth ball around `x` holds `y`; `none` models the `NetworkXNoPath`
exception. -/
def shortest_path_length (g : Graph) (x y : String) : Option Nat :=
  (List.range (g.closureFuel + 1)).find? (fun n => decide (y ∈ iterStep g.succs n {x}))

end Graph

/-! ### Graph validation (`validate_graph_structure`, lines 839-903) -/

/-- The dict `validation_result` serialized by `validate_graph_structure`. -/
structure ValidationResult where
  is_valid : Bool
  critical_issues : List String
  warnings : List String
  total_issues : Nat
  total_warnings : Nat
  deriving DecidableEq, Repr

/-- Return value of `validate_graph_structure`: the not-initialized error
string, or the JSON validation document. -/
inductive ValidateOut where
  | notInit
  | ok (r : ValidationResult)
  deriving DecidableEq, Repr

/-- The patient-node scan shared by several tools
(`[n for n in graph.nodes() if graph.nodes[n].get('node_type') == 'patient']`). -/
def patientNodes (g : Graph) : List String :=
  g.nodeIds.filter
    (fun n => dget (g.nodeAttrs n) "node_type" == some (Value.str "patient"))

/-- The description of one orphaned node in the orphan warning
(`f"{node_type}: {node_label} (ID: {node_id})"`, lines 873-875). -/
def orphanDesc (g : Graph) (n : String) : String :=
  pyStr ((dget (g.nodeAttrs n) "node_type").getD (Value.str "unknown")) ++ ": " ++
    pyStr ((dget (g.nodeAttrs n) "label").getD (Value.str n)) ++ " (ID: " ++ n ++ ")"

/-- The orphaned-nodes warning string (line 878). -/
def orphanWarning (orphaned : List String) : String :=
  "Found " ++ toString orphaned.length ++
    " orphaned nodes with no connections: " ++ pyReprStrList (orphaned.take 5)

/-- The disconnected-components critical issue string (line 893). -/
def componentsIssue (num_components : Nat) : String :=
  "Graph has " ++ toString num_components ++
    " disconnected components - should be fully connected"

/-- `validate_graph_structure` (lines 839-903). -/
def validate_graph_structure (g : Graph) : ValidateOut :=
  if g.numNodes == 0 then .notInit
  else
    let patient_nodes := patientNodes g
    let issues : List String :=
      if patient_nodes.isEmpty then ["CRITICAL: No patient node found in the graph"]
      else []
    let warnings : List String :=
      if patient_nodes.length > 1 then
        ["Multiple patient nodes found: " ++ pyReprStrList patient_nodes]
      else []
    let orphaned := (g.nodeIds.filter (fun n => g.degree n == 0)).map (orphanDesc g)
    let warnings := if orphaned.isEmpty then warnings else
      warnings ++ [orphanWarning orphaned]
    let missing_labels :=
      (g.nodeIds.filter (fun n => valFalsy (dget (g.nodeAttrs n) "label"))).map
        (fun n =>
          pyStr ((dget (g.nodeAttrs n) "node_type").getD (Value.str "unknown")) ++
            " (ID: " ++ n ++ ")")
    let warnings := if missing_labels.isEmpty then warnings else
      warnings ++ ["Found " ++ toString missing_labels.length ++
        " nodes missing labels: " ++ pyReprStrList (missing_labels.take 5)]
    let issues := if g.is_weakly_connected then issues else
      issues ++ [componentsIssue g.number_weakly_connected_components]
    .ok { is_valid := issues.isEmpty, critical_issues := issues, warnings := warnings,
          total_issues := issues.length, total_warnings := warnings.length }

/-! ### Patient overview (`get_patient_overview`, lines 676-743) -/

/-- A `conditions` entry of the overview document. -/
structure CondEntry where
  id : String
  name : Option Value
  icd_code : Option Value
  deriving DecidableEq, Repr

/-- A `medications` entry of the overview document. -/
structure MedEntry where
  id : String
  name : Option Value
  dosage : Option Value
  deriving DecidableEq, Repr

/-- The dict `overview` serialized by `get_patient_overview`. -/
structure Overview where
  patient_id : String
  patient_name : Option Value
  conditions : List CondEntry
  medications : List MedEntry
  research_articles_count : Nat
  total_nodes : Nat
  total_relationships : Nat
  deriving DecidableEq, Repr

/-- Return value of `get_patient_overview`. -/
inductive OverviewOut where
  | notInit
  | patientNotFound (patient_id : String)
  | ok (r : Overview)
  deriving DecidableEq, Repr

/-- The patient's condition neighbors: successors of type `condition`
reached by a `HAS_CONDITION` edge (lines 701-710). -/
def conditionNeighbors (g : Graph) (patient_id : String) : List String :=
  (g.succs patient_id).filter (fun n =>
    dget (g.nodeAttrs n) "node_type" == some (Value.str "condition") &&
    dget (g.edgeAttrs patient_id n) "relationship_type" ==
      some (Value.str "HAS_CONDITION"))

/-- The number of `research_article` predecessors of one node
(`sum(1 for pred in predecessors if ...)`, lines 729-731). -/
def articlePredCount (g : Graph) (condition_id : String) : Nat :=
  ((g.preds condition_id).filter (fun p =>
    dget (g.nodeAttrs p) "node_type" == some (Value.str "research_article"))).length

/-- `get_patient_overview` (lines 676-743). -/
def get_patient_overview (g : Graph) (patient_id : String) : OverviewOut :=
  if g.numNodes == 0 then .notInit
  else if !g.hasNode patient_id then .patientNotFound patient_id
  else
    let conditions := (conditionNeighbors g patient_id).map (fun n =>
      ({ id := n, name := dget (g.nodeAttrs n) "label",
         icd_code := dget (g.nodeAttrs n) "icd_code" } : CondEntry))
    let medications := ((g.succs patient_id).filter (fun n =>
        dget (g.nodeAttrs n) "node_type" == some (Value.str "medication") &&
        dget (g.edgeAttrs patient_id n) "relationship_type" ==
          some (Value.str "TAKES_MEDICATION"))).map (fun n =>
      ({ id := n, name := dget (g.nodeAttrs n) "label",
         dosage := dget (g.nodeAttrs n) "dosage" } : MedEntry))
    let research_count := ((conditions.map (fun c => articlePredCount g c.id)).sum)
    .ok { patient_id := patient_id,
          patient_name := dget (g.nodeAttrs patient_id) "name",
          conditions := conditions, medications := medications,
          research_articles_count := research_count,
          total_nodes := g.numNodes, total_relationships := g.numEdges }

/-! ### Connectivity analysis (`analyze_graph_connectivity`, lines 1103-1185) -/

/-- Python's `round(x)` to an integer: round half to even. -/
def roundHalfEven (q : ℚ) : ℤ :=
  let f := ⌊q⌋
  let r := q - (f : ℚ)
  if r < 1 / 2 then f
  else if 1 / 2 < r then f + 1
  else if Even f then f else f + 1

/-- Python's `round(x, 2)`, idealized over the rationals. -/
def round2 (q : ℚ) : ℚ := (roundHalfEven (q * 100) : ℚ) / 100

/-- `d[k] = d.get(k, 0) + 1` on the histogram dict. -/
def bumpCount (d : List (Value × Nat)) (k : Value) : List (Value × Nat) :=
  if d.any (fun p => p.1 == k) then
    d.map (fun p => if p.1 == k then (k, p.2 + 1) else p)
  else d ++ [(k, 1)]

/-- The dict `connectivity` serialized by `analyze_graph_connectivity`. -/
structure Connectivity where
  patient_id : String
  direct_connections : Nat
  connections_by_type : List (Value × Nat)
  total_reachable_nodes : Nat
  conditions_count : Nat
  research_articles_count : Nat
  clinical_trials_count : Nat
  average_research_depth : ℚ
  insights : List String
  deriving DecidableEq, Repr

/-- Return value of `analyze_graph_connectivity`: the not-initialized
error, the `{'error': 'No patient node found'}` document, or the
connectivity document. -/
inductive AnalyzeOut where
  | notInit
  | noPatient
  | ok (r : Connectivity)
  deriving DecidableEq, Repr

/-- `analyze_graph_connectivity` (lines 1103-1185).  The `reachable` set
(`nx.descendants`) is a Python set, so the lists partitioned from it carry
no specified order; we keep them as finite sets and the path-length
average as an exact rational (the float arithmetic idealized).  The
`insights` entry interpolating the raw float renders the rational with
`toString` in place of Python's float formatting. -/
def analyze_graph_connectivity (g : Graph) : AnalyzeOut :=
  if g.numNodes == 0 then .notInit
  else
    match patientNodes g with
    | [] => .noPatient
    | patient_id :: _ =>
      let direct_neighbors := g.succs patient_id
      let neighbor_types := direct_neighbors.foldl
        (fun d n => bumpCount d ((dget (g.nodeAttrs n) "node_type").getD
          (Value.str "unknown"))) []
      let reachable := g.descendants patient_id
      let conditionsR := reachable.filter (fun n =>
        dget (g.nodeAttrs n) "node_type" = some (Value.str "condition"))
      let articlesR := reachable.filter (fun n =>
        dget (g.nodeAttrs n) "node_type" = some (Value.str "research_article"))
      let trialsR := reachable.filter (fun n =>
        dget (g.nodeAttrs n) "node_type" = some (Value.str "clinical_trial"))
      let research := articlesR ∪ trialsR
      let withPath := research.filter (fun n => (g.shortest_path_length patient_id n).isSome)
      let avg : ℚ :=
        if withPath.card == 0 then 0
        else ((withPath.sum (fun n => ((g.shortest_path_length patient_id n).getD 0)) : ℚ) /
          (withPath.card : ℚ))
      let insights : List String :=
        (if conditionsR.card == 0 then ["No medical conditions linked to patient yet"]
         else []) ++
        (if articlesR.card == 0 then ["No research articles added to knowledge graph yet"]
         else []) ++
        (if conditionsR.card > 0 && articlesR.card == 0 then
          ["Patient has conditions but no related research linked"] else []) ++
        (if avg > 3 then
          ["Research is " ++ toString avg ++
            " steps away from patient - consider more direct links"] else [])
      .ok { patient_id := patient_id,
            direct_connections := direct_neighbors.length,
            connections_by_type := neighbor_types,
            total_reachable_nodes := reachable.card,
            conditions_count := conditionsR.card,
            research_articles_count := articlesR.card,
            clinical_trials_count := trialsR.card,
            average_research_depth := round2 avg,
            insights := insights }

/-! ### Deletion and merge (lines 1574-1761) -/

/-- Success payload of `delete_node`. -/
structure DeleteNodeRes where
  deleted_node : String
  node_type : Value
  node_label : Value
  edges_removed : Nat
  message : String
  deriving DecidableEq, Repr

/-- Return value of `delete_node`: the error document or the success
document. -/
inductive DeleteNodeOut where
  | err (message : String)
  | ok (r : DeleteNodeRes)
  deriving DecidableEq, Repr

/-- `delete_node` (lines 1574-1617). -/
def delete_node (g : Graph) (node_id : String) : DeleteNodeOut × Graph :=
  if !g.hasNode node_id then
    (.err ("Node '" ++ node_id ++ "' does not exist in the graph"), g)
  else
    let node_data := g.nodeAttrs node_id
    let total_edges := (g.inEdges node_id).length + (g.outEdges node_id).length
    let g' := g.removeNode node_id
    (.ok { deleted_node := node_id,
           node_type := (dget node_data "node_type").getD (Value.str "unknown"),
           node_label := (dget node_data "label").getD (Value.str node_id),
           edges_removed := total_edges,
           message := "Successfully deleted node '" ++ node_id ++ "' and " ++
             toString total_edges ++ " connected edges" }, g')

/-- Success payload of `delete_relationship`. -/
structure DeleteEdgeRes where
  source : String
  target : String
  relationship_type : Value
  message : String
  deriving DecidableEq, Repr

/-- Return value of `delete_relationship`. -/
inductive DeleteEdgeOut where
  | err (message : String)
  | ok (r : DeleteEdgeRes)
  deriving DecidableEq, Repr

/-- `delete_relationship` (lines 1620-1674). -/
def delete_relationship (g : Graph) (source_node target_node : String) :
    DeleteEdgeOut × Graph :=
  if !g.hasNode source_node then
    (.err ("Source node '" ++ source_node ++ "' does not exist"), g)
  else if !g.hasNode target_node then
    (.err ("Target node '" ++ target_node ++ "' does not exist"), g)
  else if !g.hasEdge source_node target_node then
    (.err ("No edge exists from '" ++ source_node ++ "' to '" ++ target_node ++ "'"), g)
  else
    let edge_data := g.edgeAttrs source_node target_node
    let relationship_type := (dget edge_data "relationship_type").getD (Value.str "unknown")
    (.ok { source := source_node, target := target_node,
           relationship_type := relationship_type,
           message := "Successfully deleted '" ++ pyStr relationship_type ++
             "' relationship from '" ++ source_node ++ "' to '" ++ target_node ++ "'" },
     g.removeEdge source_node target_node)

/-- Success payload of `merge_duplicate_nodes`. -/
structure MergeRes where
  primary_node : String
  merged_node : String
  edges_transferred : Nat
  merged_attributes : List String
  message : String
  deriving DecidableEq, Repr

/-- Return value of `merge_duplicate_nodes`. -/
inductive MergeOut where
  | err (message : String)
  | ok (r : MergeRes)
  deriving DecidableEq, Repr

/-- The incoming-edge migration loop of `merge_duplicate_nodes`
(lines 1731-1737), threading (graph, edges_transferred). -/
def mergeInStep (p d : String) (acc : Graph × Nat) (e : String × String) :
    Graph × Nat :=
  if e.1 != p then
    let edge_data := acc.1.edgeAttrs e.1 d
    if !acc.1.hasEdge e.1 p then (acc.1.addEdge e.1 p edge_data, acc.2 + 1)
    else acc
  else acc

/-- The outgoing-edge migration loop of `merge_duplicate_nodes`
(lines 1740-1745). -/
def mergeOutStep (p d : String) (acc : Graph × Nat) (e : String × String) :
    Graph × Nat :=
  if e.2 != p then
    let edge_data := acc.1.edgeAttrs d e.2
    if !acc.1.hasEdge p e.2 then (acc.1.addEdge p e.2 edge_data, acc.2 + 1)
    else acc
  else acc

/-- The attribute reconciliation of `merge_duplicate_nodes`
(lines 1719-1725): primary's dict with every duplicate key that is absent
or `None` on the primary filled in from the duplicate. -/
def mergedData (g : Graph) (primary_node_id duplicate_node_id : String) : Attrs :=
  (g.nodeAttrs duplicate_node_id).foldl (fun acc kv =>
    if !dhas acc kv.1 || dget acc kv.1 == some Value.null then dset acc kv.1 kv.2
    else acc) (g.nodeAttrs primary_node_id)

/-- The node list after `graph.nodes[primary].update(primary_data)`
(line 1728). -/
def mergeNodes (g : Graph) (primary_node_id duplicate_node_id : String) :
    List (String × Attrs) :=
  g.nodes.map (fun q =>
    if q.1 == primary_node_id then
      (primary_node_id, dmerge q.2 (mergedData g primary_node_id duplicate_node_id))
    else q)

/-- `merge_duplicate_nodes` (lines 1677-1761).  Note: `merged_attributes`
is `list(duplicate_data.keys())`, every key of the duplicate regardless of
whether it was copied, and the outgoing-edge snapshot is taken after the
incoming loop already ran. -/
def merge_duplicate_nodes (g : Graph) (primary_node_id duplicate_node_id : String) :
    MergeOut × Graph :=
  if !g.hasNode primary_node_id then
    (.err ("Primary node '" ++ primary_node_id ++ "' does not exist"), g)
  else if !g.hasNode duplicate_node_id then
    (.err ("Duplicate node '" ++ duplicate_node_id ++ "' does not exist"), g)
  else if primary_node_id == duplicate_node_id then
    (.err "Primary and duplicate node IDs must be different", g)
  else
    let g1 : Graph :=
      { g with nodes := mergeNodes g primary_node_id duplicate_node_id }
    let s1 := (g1.inEdges duplicate_node_id).foldl
      (mergeInStep primary_node_id duplicate_node_id) (g1, 0)
    let s2 := (s1.1.outEdges duplicate_node_id).foldl
      (mergeOutStep primary_node_id duplicate_node_id) s1
    let g2 := s2.1.removeNode duplicate_node_id
    (.ok { primary_node := primary_node_id, merged_node := duplicate_node_id,
           edges_transferred := s2.2,
           merged_attributes := dkeys (g.nodeAttrs duplicate_node_id),
           message := "Successfully merged '" ++ duplicate_node_id ++ "' into '" ++
             primary_node_id ++ "' and transferred " ++ toString s2.2 ++
             " relationships" }, g2)

/-! ### Persistence codec (`save_graph_to_disk` lines 1325-1330,
`load_graph_from_disk` lines 1442-1484)

The JSON save path is `json.dump(nx.node_link_data(graph))`; the load path
is `nx.node_link_graph(json.load(f), directed=True)`.  `json.dump` followed
by `json.load` is the identity on the JSON-compatible document, so the
round trip through disk is the composition of the two NetworkX codecs,
which we model here.  (Timestamped file naming, the GraphML and Cytoscape
exports and the text summary do not feed back into the graph state.) -/

/-- The node-link document: the `"nodes"` and `"links"` lists of dicts
(the constant header entries `directed`/`multigraph`/`graph` omitted). -/
structure NodeLinkData where
  nodes : List Attrs
  links : List Attrs
  deriving DecidableEq, Repr

/-- `nx.node_link_data(G)`: each node's attribute dict with `"id"` set to
the node id (overriding any existing `"id"` attribute in place), each
edge's dict with `"source"` and `"target"` set to its endpoints. -/
def node_link_data (g : Graph) : NodeLinkData :=
  { nodes := g.nodes.map (fun p => dset p.2 "id" (Value.str p.1)),
    links := g.edges.map (fun e =>
      dset (dset e.2.2 "source" (Value.str e.1)) "target" (Value.str e.2.1)) }

/-- The node id a decoded entry denotes (`d.get('id', i)` with `i` the
enumeration index); ids written by this engine are strings. -/
def idOfEntry (i : Nat) (d : Attrs) : String :=
  match dget d "id" with
  | some (Value.str s) => s
  | some v => pyStr v
  | none => toString i

/-- An edge-endpoint value of a decoded link entry (`d['source']`,
`d['target']`; a missing key would raise in Python — we default to `""`,
unreachable on documents produced by `node_link_data`). -/
def endpointOfEntry (d : Attrs) (k : String) : String :=
  match dget d k with
  | some (Value.str s) => s
  | some v => pyStr v
  | none => ""

/-- `nx.node_link_graph(data, directed=True)`: add every node with its
dict minus `"id"`, then every edge with its dict minus `"source"` and
`"target"` (`add_edge` creating any endpoint that is not a listed node). -/
def node_link_graph (data : NodeLinkData) : Graph :=
  let g1 := data.nodes.enum.foldl
    (fun g ie => g.addNode (idOfEntry ie.1 ie.2) (dstrip ie.2 "id")) Graph.empty
  data.links.foldl
    (fun g d =>
      g.addEdge (endpointOfEntry d "source") (endpointOfEntry d "target")
        (dstrip (dstrip d "source") "target"))
    g1

/-- The invariant every graph state reachable through the tool API
satisfies (it mirrors what Python dicts and `nx.DiGraph` guarantee by
construction): node ids unique, at most one edge per ordered pair, edge
endpoints present, and attribute dicts without repeated keys. -/
def Graph.wellFormed (g : Graph) : Prop :=
  g.nodeIds.Nodup ∧
  (g.edges.map (fun e => (e.1, e.2.1))).Nodup ∧
  (∀ e ∈ g.edges, g.hasNode e.1 = true ∧ g.hasNode e.2.1 = true) ∧
  (∀ p ∈ g.nodes, (dkeys p.2).Nodup) ∧
  (∀ e ∈ g.edges, (dkeys e.2.2).Nodup)

instance (g : Graph) : Decidable g.wellFormed := by
  unfold Graph.wellFormed; infer_instance

/-! ## Basic lemmas about the dict and graph primitives -/

theorem dget_cons (k1 k : String) (v1 : Value) (t : Attrs) :
    dget ((k1, v1) :: t) k = if k1 == k then some v1 else dget t k := rfl

theorem dget_nil (k : String) : dget ([] : Attrs) k = none := rfl

theorem dhas_iff_dget_isSome (d : Attrs) (k : String) :
    dhas d k = (dget d k).isSome := by
  induction d with
  | nil => rfl
  | cons p t ih =>
    rcases p with ⟨k1, v1⟩
    by_cases h : k1 = k <;> simp [dhas, dget_cons, h, ih]

theorem dget_dset_self (d : Attrs) (k : String) (v : Value) :
    dget (dset d k v) k = some v := by
  induction d with
  | nil => simp [dset, dget_cons]
  | cons p t ih =>
    rcases p with ⟨k1, v1⟩
    by_cases h : k1 = k <;> simp [dset, dget_cons, h, ih]

theorem dget_dset_ne (d : Attrs) (k k' : String) (v : Value) (h : k' ≠ k) :
    dget (dset d k v) k' = dget d k' := by
  induction d with
  | nil => simp [dset, dget_cons, dget_nil, Ne.symm h]
  | cons p t ih =>
    rcases p with ⟨k1, v1⟩
    by_cases hk : k1 = k
    · subst hk
      simp [dset, dget_cons, Ne.symm h]
    · simp [dset, dget_cons, hk, ih]

theorem hasNode_nil_false (g : Graph) (h : g.nodes = []) (n : String) :
    g.hasNode n = false := by
  simp [Graph.hasNode, h]

theorem numNodes_zero_nodes_nil (g : Graph) (h : g.numNodes = 0) : g.nodes = [] :=
  List.length_eq_zero.mp h

theorem addNode_fresh (g : Graph) (n : String) (a : Attrs)
    (h : g.hasNode n = false) :
    g.addNode n a = { g with nodes := g.nodes ++ [(n, a)] } := by
  simp [Graph.addNode, h]

theorem addEdge_fresh (g : Graph) (u v : String) (a : Attrs)
    (hu : g.hasNode u = true) (hv : g.hasNode v = true)
    (he : g.hasEdge u v = false) :
    g.addEdge u v a = { g with edges := g.edges ++ [(u, v, a)] } := by
  simp [Graph.addEdge, hu, hv, he]

theorem hasNode_append_single (g : Graph) (n : String) (a : Attrs) (m : String) :
    ({ g with nodes := g.nodes ++ [(n, a)] } : Graph).hasNode m =
      (g.hasNode m || m == n) := by
  simp only [Graph.hasNode, List.any_append, List.any_cons, List.any_nil]
  by_cases h : n = m
  · simp [h]
  · rw [beq_eq_false_iff_ne.mpr h, beq_eq_false_iff_ne.mpr (Ne.symm h)]
    simp

/-! ## C7 — `add_relationship` with a missing endpoint

Claim: for every call `add_relationship(A, B, X)` in which node `B` does
not exist, the operation fails with a node-not-found error and the graph
(hence its edge count, nodes, and edges) is unchanged. -/

/-- C7: if the target node is absent, `add_relationship` returns the
untouched graph together with one of the two node-not-found error
messages (the source error takes priority when the source is missing
too). -/
theorem add_relationship_missing_target (g : Graph) (A B X : String) (props : Attrs)
    (hB : g.hasNode B = false) :
    (add_relationship g A B X props).2 = g ∧
      ((add_relationship g A B X props).1 =
          "Error: Source node '" ++ A ++ "' does not exist in the graph." ∨
        (add_relationship g A B X props).1 =
          "Error: Target node '" ++ B ++ "' does not exist in the graph.") := by
  unfold add_relationship
  cases hA : g.hasNode A
  · simp [hA]
  · simp [hA, hB]

/-- The one-node graph used to witness C7. -/
def exGraphC7 : Graph :=
  { nodes := [("A", [("node_type", Value.str "patient"), ("label", Value.str "A")])],
    edges := [] }

/-- C7 witness: the hypothesis and conclusion of
`add_relationship_missing_target` at a concrete graph. -/
theorem add_relationship_missing_target_witness :
    exGraphC7.hasNode "B" = false ∧
      ((add_relationship exGraphC7 "A" "B" "X" []).2 = exGraphC7 ∧
        ((add_relationship exGraphC7 "A" "B" "X" []).1 =
            "Error: Source node '" ++ "A" ++ "' does not exist in the graph." ∨
          (add_relationship exGraphC7 "A" "B" "X" []).1 =
            "Error: Target node '" ++ "B" ++ "' does not exist in the graph.")) :=
  ⟨by decide, add_relationship_missing_target exGraphC7 "A" "B" "X" [] (by decide)⟩

/-! ## C3 — operations on a zero-node ("uninitialized") graph

Claim: every mutation/query operation other than initialize — including
`delete_node`, `delete_relationship`, `merge_duplicate_nodes` and
`bulk_add_relationships` — fails with a `NotInitialized` error on a
zero-node graph.  In the code only the tools with an explicit
`number_of_nodes() == 0` guard do; the deletion and merge tools return
node-not-found errors instead, and `bulk_add_relationships` has no guard
at all: on an empty batch it reports plain success. -/

/-- C3 counterexample: `bulk_add_relationships` on the empty graph with an
empty batch returns a success message — not a `NotInitialized` (nor any)
error — refuting the claim at this input. -/
theorem bulk_add_relationships_empty_no_notinit :
    Graph.empty.numNodes = 0 ∧
    bulk_add_relationships Graph.empty [] =
      ("Successfully added 0 relationships to the knowledge graph.", Graph.empty) ∧
    "Successfully added 0 relationships to the knowledge graph." ≠
      notInitializedShort ∧
    "Successfully added 0 relationships to the knowledge graph." ≠
      notInitializedMsg := by
  refine ⟨rfl, rfl, by decide, by decide⟩

theorem bulk_rels_step_empty (acc : BulkRelsAcc) (e : Nat × RelSpec)
    (h : acc.graph.nodes = []) :
    (bulk_add_relationships_step acc e).graph = acc.graph ∧
    (bulk_add_relationships_step acc e).added_relationships =
      acc.added_relationships := by
  rcases e with ⟨i, rd⟩
  unfold bulk_add_relationships_step
  rcases rd with ⟨s, t, rt, props⟩
  cases s with
  | none => exact ⟨rfl, rfl⟩
  | some s =>
    cases t with
    | none => exact ⟨rfl, rfl⟩
    | some t =>
      cases rt with
      | none => exact ⟨rfl, rfl⟩
      | some rt =>
        simp [hasNode_nil_false _ h]

theorem bulk_rels_core_fold_empty (l : List (Nat × RelSpec)) (acc : BulkRelsAcc)
    (h : acc.graph.nodes = []) :
    (l.foldl bulk_add_relationships_step acc).graph = acc.graph ∧
    (l.foldl bulk_add_relationships_step acc).added_relationships =
      acc.added_relationships := by
  induction l generalizing acc with
  | nil => exact ⟨rfl, rfl⟩
  | cons e tl ih =>
    have hs := bulk_rels_step_empty acc e h
    have := ih (bulk_add_relationships_step acc e) (by rw [hs.1]; exact h)
    simp only [List.foldl_cons]
    exact ⟨this.1.trans hs.1, this.2.trans hs.2⟩

/-- C3 amended: on a zero-node graph, the guarded tools return the
not-initialized error; `delete_node`, `delete_relationship`,
`merge_duplicate_nodes` and `add_relationship` return node-not-found
errors instead; `bulk_add_relationships` runs without any guard, adding
nothing and reporting per-item errors only; and in every case the graph
is left unchanged (empty). -/
theorem empty_graph_operations (g : Graph) (h : g.numNodes = 0)
    (nid nt lbl pid s t rt p d : String) (props : Attrs)
    (specs : List NodeSpec) (rels : List RelSpec) :
    add_node g nid nt lbl props = (notInitializedMsg, g) ∧
    bulk_add_nodes g specs = (notInitializedMsg, g) ∧
    get_patient_overview g pid = .notInit ∧
    validate_graph_structure g = .notInit ∧
    analyze_graph_connectivity g = .notInit ∧
    delete_node g nid = (.err ("Node '" ++ nid ++ "' does not exist in the graph"), g) ∧
    delete_relationship g s t =
      (.err ("Source node '" ++ s ++ "' does not exist"), g) ∧
    merge_duplicate_nodes g p d =
      (.err ("Primary node '" ++ p ++ "' does not exist"), g) ∧
    add_relationship g s t rt props =
      ("Error: Source node '" ++ s ++ "' does not exist in the graph.", g) ∧
    (bulk_add_relationships g rels).2 = g ∧
    (bulk_add_relationships_core g rels).added_relationships = [] := by
  have hnil : g.nodes = [] := numNodes_zero_nodes_nil g h
  have hno : ∀ n, g.hasNode n = false := fun n => hasNode_nil_false g hnil n
  have hz : (g.numNodes == 0) = true := by simp [h]
  have hcore := bulk_rels_core_fold_empty rels.enum
    { graph := g, added_relationships := [], errors := [] } hnil
  refine ⟨?_, ?_, ?_, ?_, ?_, ?_, ?_, ?_, ?_, ?_, ?_⟩
  · unfold add_node; rw [hz]; simp
  · unfold bulk_add_nodes; rw [hz]; simp
  · unfold get_patient_overview; rw [hz]; simp
  · unfold validate_graph_structure; rw [hz]; simp
  · unfold analyze_graph_connectivity; rw [hz]; simp
  · unfold delete_node; rw [hno nid]; simp
  · unfold delete_relationship; rw [hno s]; simp
  · unfold merge_duplicate_nodes; rw [hno p]; simp
  · unfold add_relationship; rw [hno s]; simp
  · show (bulk_add_relationships_core g rels).graph = g
    exact hcore.1
  · exact hcore.2

/-- C3 amended witness: the hypothesis and conclusion of
`empty_graph_operations` at the empty graph and concrete arguments. -/
theorem empty_graph_operations_witness :
    Graph.empty.numNodes = 0 ∧
      (add_node Graph.empty "n" "t" "l" [] = (notInitializedMsg, Graph.empty) ∧
        bulk_add_nodes Graph.empty [] = (notInitializedMsg, Graph.empty) ∧
        get_patient_overview Graph.empty "P" = .notInit ∧
        validate_graph_structure Graph.empty = .notInit ∧
        analyze_graph_connectivity Graph.empty = .notInit ∧
        delete_node Graph.empty "n" =
          (.err ("Node '" ++ "n" ++ "' does not exist in the graph"), Graph.empty) ∧
        delete_relationship Graph.empty "s" "t" =
          (.err ("Source node '" ++ "s" ++ "' does not exist"), Graph.empty) ∧
        merge_duplicate_nodes Graph.empty "p" "d" =
          (.err ("Primary node '" ++ "p" ++ "' does not exist"), Graph.empty) ∧
        add_relationship Graph.empty "s" "t" "R" [] =
          ("Error: Source node '" ++ "s" ++ "' does not exist in the graph.",
            Graph.empty) ∧
        (bulk_add_relationships Graph.empty []).2 = Graph.empty ∧
        (bulk_add_relationships_core Graph.empty []).added_relationships = []) :=
  ⟨rfl, empty_graph_operations Graph.empty rfl "n" "t" "l" "P" "s" "t" "R" "p" "d"
    [] [] []⟩

/-! ## C4 — error atomicity of single-item operations

Claim: every single-item operation that returns an error leaves the graph
exactly as before; in particular `add_patient_condition` with an unknown
`patient_id` adds no node and no edge.  In the code
`add_patient_condition` first adds the condition node via `add_node` and
only then calls `add_relationship`, so on an initialized graph with an
unknown patient the condition node is added even though an error is
returned. -/

/-- The one-patient graph produced by `initialize_patient_graph`,
used for the C4 counterexample. -/
def exGraphC4 : Graph := (initialize_patient_graph Graph.empty "P1" "Alice").2

/-- C4 counterexample: on `exGraphC4` (initialized, no node `P2`),
`add_patient_condition("P2", "Flu")` returns an error message yet grows
the node set by the condition node — the error is not atomic. -/
theorem add_patient_condition_not_atomic :
    exGraphC4.hasNode "P2" = false ∧
    (add_patient_condition exGraphC4 "P2" "Flu" none none).1 =
      "Added condition node: condition_flu - Flu\nError: Source node 'P2' does not exist in the graph." ∧
    (add_patient_condition exGraphC4 "P2" "Flu" none none).2.numNodes =
      exGraphC4.numNodes + 1 ∧
    (add_patient_condition exGraphC4 "P2" "Flu" none none).2.hasNode
      "condition_flu" = true := by
  refine ⟨by decide, by decide, by decide, by decide⟩

/-- C4 amended: the primitive single-item operations are atomic on error
(shown for `add_relationship` in `add_relationship_missing_target`), but
the composite `add_patient_condition`, called on an initialized graph
whose patient id is unknown, appends the condition node, adds no edge,
and returns the concatenation of the add-node success message and the
relationship error. -/
theorem add_patient_condition_error_effect (g : Graph) (pid cname : String)
    (icd : Option String) (sym : Option (List String))
    (hne : g.numNodes ≠ 0) (hpid : g.hasNode pid = false)
    (hcid : g.hasNode (condition_id_of cname) = false)
    (hdiff : pid ≠ condition_id_of cname) :
    (add_patient_condition g pid cname icd sym).2.nodes =
      g.nodes ++ [(condition_id_of cname,
        nodeToolAttrs "condition" cname (conditionProps icd sym))] ∧
    (add_patient_condition g pid cname icd sym).2.edges = g.edges ∧
    (add_patient_condition g pid cname icd sym).1 =
      "Added condition node: " ++ condition_id_of cname ++ " - " ++ cname ++ "\n" ++
        "Error: Source node '" ++ pid ++ "' does not exist in the graph." := by
  have hz : (g.numNodes == 0) = false := by
    simp [Nat.beq_eq_true_eq]
    exact hne
  unfold add_patient_condition add_node
  rw [hz]
  simp only [Bool.false_eq_true, if_false]
  rw [addNode_fresh g _ _ hcid]
  unfold add_relationship
  rw [hasNode_append_single, hpid, beq_eq_false_iff_ne.mpr hdiff]
  simp only [Bool.or_self, Bool.not_false, if_true, Prod.fst, Prod.snd]
  refine ⟨trivial, trivial, ?_⟩
  simp only [String.append_assoc]
  rfl

/-- C4 amended witness: hypotheses and conclusion of
`add_patient_condition_error_effect` at the concrete graph `exGraphC4`. -/
theorem add_patient_condition_error_effect_witness :
    (exGraphC4.numNodes ≠ 0 ∧ exGraphC4.hasNode "P2" = false ∧
      exGraphC4.hasNode (condition_id_of "Flu") = false ∧
      "P2" ≠ condition_id_of "Flu") ∧
    ((add_patient_condition exGraphC4 "P2" "Flu" none none).2.nodes =
      exGraphC4.nodes ++ [(condition_id_of "Flu",
        nodeToolAttrs "condition" "Flu" (conditionProps none none))] ∧
    (add_patient_condition exGraphC4 "P2" "Flu" none none).2.edges =
      exGraphC4.edges ∧
    (add_patient_condition exGraphC4 "P2" "Flu" none none).1 =
      "Added condition node: " ++ condition_id_of "Flu" ++ " - " ++ "Flu" ++ "\n" ++
        "Error: Source node '" ++ "P2" ++ "' does not exist in the graph.") :=
  ⟨⟨by decide, by decide, by decide, by decide⟩,
    add_patient_condition_error_effect exGraphC4 "P2" "Flu" none none
      (by decide) (by decide) (by decide) (by decide)⟩

/-! ## C6 — partial-success semantics of `bulk_add_nodes`

Claim: on an initialized graph, a batch of exactly 3 valid node specs
(all of `node_id`, `node_type`, `label` present, ids new to the graph —
hence, since the three are added in sequence, pairwise distinct) and 2
invalid specs adds exactly the 3 valid nodes, reports exactly 2 errors,
and the invalid entries cause no mutation. -/

/-- A bulk entry is valid when all three required fields are present. -/
def NodeSpec.validB (s : NodeSpec) : Bool :=
  s.node_id.isSome && s.node_type.isSome && s.label.isSome

/-- The graph effect of one bulk entry: valid entries add their node,
invalid entries leave the graph untouched. -/
def addValidNode (g : Graph) (s : NodeSpec) : Graph :=
  match s.node_id, s.node_type, s.label with
  | some node_id, some node_type, some label =>
    g.addNode node_id (nodeToolAttrs node_type label s.properties)
  | _, _, _ => g

/-- The node ids of the valid entries of a batch, in order. -/
def validIds (specs : List NodeSpec) : List String :=
  specs.filterMap (fun s => if s.validB then s.node_id else none)

theorem bulk_nodes_fold_shape (l : List (Nat × NodeSpec)) (acc : BulkNodesAcc) :
    (l.foldl bulk_add_nodes_step acc).errors.length =
      acc.errors.length + l.countP (fun ie => !ie.2.validB) ∧
    (l.foldl bulk_add_nodes_step acc).added_nodes.length =
      acc.added_nodes.length + l.countP (fun ie => ie.2.validB) ∧
    (l.foldl bulk_add_nodes_step acc).graph =
      l.foldl (fun g ie => addValidNode g ie.2) acc.graph := by
  induction l generalizing acc with
  | nil => simp
  | cons e tl ih =>
    rcases e with ⟨i, s⟩
    rcases s with ⟨nid, nt, lbl, props⟩
    have step :
        (bulk_add_nodes_step acc (i, ⟨nid, nt, lbl, props⟩)).errors.length =
          acc.errors.length +
            (if (NodeSpec.mk nid nt lbl props).validB then 0 else 1) ∧
        (bulk_add_nodes_step acc (i, ⟨nid, nt, lbl, props⟩)).added_nodes.length =
          acc.added_nodes.length +
            (if (NodeSpec.mk nid nt lbl props).validB then 1 else 0) ∧
        (bulk_add_nodes_step acc (i, ⟨nid, nt, lbl, props⟩)).graph =
          addValidNode acc.graph ⟨nid, nt, lbl, props⟩ := by
      cases nid <;> cases nt <;> cases lbl <;>
        simp [bulk_add_nodes_step, NodeSpec.validB, addValidNode]
    have tail := ih (bulk_add_nodes_step acc (i, ⟨nid, nt, lbl, props⟩))
    refine ⟨?_, ?_, ?_⟩
    · rw [List.foldl_cons, tail.1, step.1, List.countP_cons]
      by_cases hv : (NodeSpec.mk nid nt lbl props).validB <;> simp [hv] <;> omega
    · rw [List.foldl_cons, tail.2.1, step.2.1, List.countP_cons]
      by_cases hv : (NodeSpec.mk nid nt lbl props).validB <;> simp [hv] <;> omega
    · simp only [List.foldl_cons]
      rw [tail.2.2, step.2.2]

theorem validB_fields (s : NodeSpec) (h : s.validB = true) :
    ∃ id0 nt0 lbl0, s.node_id = some id0 ∧ s.node_type = some nt0 ∧
      s.label = some lbl0 := by
  rcases s with ⟨nid, nt, lbl, props⟩
  cases nid <;> cases nt <;> cases lbl <;> simp_all [NodeSpec.validB]

theorem validIds_cons_valid (s : NodeSpec) (tl : List NodeSpec) (id0 : String)
    (hid : s.node_id = some id0) (hv : s.validB = true) :
    validIds (s :: tl) = id0 :: validIds tl := by
  simp [validIds, hv, hid]

theorem validIds_cons_invalid (s : NodeSpec) (tl : List NodeSpec)
    (hv : s.validB = false) :
    validIds (s :: tl) = validIds tl := by
  simp [validIds, hv]

theorem addValidNode_invalid (g : Graph) (s : NodeSpec) (hv : s.validB = false) :
    addValidNode g s = g := by
  rcases s with ⟨nid, nt, lbl, props⟩
  cases nid <;> cases nt <;> cases lbl <;> simp_all [NodeSpec.validB, addValidNode]

theorem addValid_fold_numNodes (specs : List NodeSpec) (g : Graph)
    (hfresh : ∀ id ∈ validIds specs, g.hasNode id = false)
    (hnodup : (validIds specs).Nodup) :
    (specs.foldl addValidNode g).numNodes = g.numNodes + (validIds specs).length := by
  induction specs generalizing g with
  | nil => simp [validIds]
  | cons s tl ih =>
    by_cases hv : s.validB
    · obtain ⟨id0, nt0, lbl0, hid, hnt, hlbl⟩ := validB_fields s hv
      have hvid := validIds_cons_valid s tl id0 hid hv
      rw [hvid] at hfresh hnodup
      have hfr : g.hasNode id0 = false := hfresh id0 (by simp)
      have step : addValidNode g s =
          { g with nodes := g.nodes ++ [(id0, nodeToolAttrs nt0 lbl0 s.properties)] } := by
        rcases s with ⟨nid, nt, lbl, props⟩
        cases hid; cases hnt; cases hlbl
        show g.addNode id0 (nodeToolAttrs nt0 lbl0 props) = _
        exact addNode_fresh g _ _ hfr
      rw [List.foldl_cons, step, hvid]
      have hfresh' : ∀ id ∈ validIds tl,
          ({ g with nodes := g.nodes ++ [(id0, nodeToolAttrs nt0 lbl0 s.properties)] } :
            Graph).hasNode id = false := by
        intro id hmem
        rw [hasNode_append_single]
        have hne : id ≠ id0 := by
          intro hcontra
          exact (List.nodup_cons.mp hnodup).1 (hcontra ▸ hmem)
        simp [hfresh id (List.mem_cons_of_mem _ hmem), hne]
      have := ih _ hfresh' (List.nodup_cons.mp hnodup).2
      rw [this]
      simp [Graph.numNodes]
      omega
    · rw [Bool.not_eq_true] at hv
      have hvid := validIds_cons_invalid s tl hv
      rw [hvid] at hfresh hnodup
      rw [List.foldl_cons, addValidNode_invalid g s hv, hvid]
      exact ih g hfresh hnodup

theorem countP_enum_snd (specs : List NodeSpec) (p : NodeSpec → Bool) (n : Nat) :
    (specs.enumFrom n).countP (fun ie => p ie.2) = specs.countP p := by
  induction specs generalizing n with
  | nil => rfl
  | cons s tl ih => simp [List.enumFrom, List.countP_cons, ih]

theorem foldl_enum_snd (specs : List NodeSpec) (f : Graph → NodeSpec → Graph)
    (g : Graph) (n : Nat) :
    (specs.enumFrom n).foldl (fun acc ie => f acc ie.2) g = specs.foldl f g := by
  induction specs generalizing n g with
  | nil => rfl
  | cons s tl ih => simp [List.enumFrom, ih]

theorem validIds_length (specs : List NodeSpec) :
    (validIds specs).length = specs.countP (fun s => s.validB) := by
  induction specs with
  | nil => rfl
  | cons s tl ih =>
    by_cases hv : s.validB
    · obtain ⟨id0, _, _, hid, _, _⟩ := validB_fields s hv
      rw [validIds_cons_valid s tl id0 hid hv, List.countP_cons]
      simp [hv, ih]
    · rw [Bool.not_eq_true] at hv
      rw [validIds_cons_invalid s tl hv, List.countP_cons]
      simp [hv, ih]

/-- C6: on an initialized graph, a batch with exactly 3 valid specs (ids
new to the graph, hence pairwise distinct as they are added in sequence)
and 2 invalid specs yields exactly 2 reported errors, 3 added nodes, a
node count larger by exactly 3, and a final graph equal to the fold of
the valid entries alone (the invalid entries cause no mutation). -/
theorem bulk_add_nodes_partial_success (g : Graph) (specs : List NodeSpec)
    (hne : g.numNodes ≠ 0)
    (hval : specs.countP (fun s => s.validB) = 3)
    (hinval : specs.countP (fun s => !s.validB) = 2)
    (hfresh : ∀ id ∈ validIds specs, g.hasNode id = false)
    (hnodup : (validIds specs).Nodup) :
    (bulk_add_nodes_core g specs).errors.length = 2 ∧
    (bulk_add_nodes_core g specs).added_nodes.length = 3 ∧
    (bulk_add_nodes_core g specs).graph = specs.foldl addValidNode g ∧
    (bulk_add_nodes g specs).2.numNodes = g.numNodes + 3 := by
  have hz : (g.numNodes == 0) = false := by
    simp [Nat.beq_eq_true_eq]; exact hne
  have hshape := bulk_nodes_fold_shape specs.enum
    { graph := g, added_nodes := [], errors := [] }
  have hc1 : (specs.enum).countP (fun ie => !ie.2.validB) = 2 := by
    rw [show specs.enum = specs.enumFrom 0 from rfl,
      countP_enum_snd specs (fun s => !s.validB) 0]
    exact hinval
  have hc2 : (specs.enum).countP (fun ie => ie.2.validB) = 3 := by
    rw [show specs.enum = specs.enumFrom 0 from rfl,
      countP_enum_snd specs (fun s => s.validB) 0]
    exact hval
  have hg : (bulk_add_nodes_core g specs).graph = specs.foldl addValidNode g := by
    rw [show bulk_add_nodes_core g specs =
        specs.enum.foldl bulk_add_nodes_step
          { graph := g, added_nodes := [], errors := [] } from rfl]
    rw [hshape.2.2, show specs.enum = specs.enumFrom 0 from rfl,
      foldl_enum_snd specs addValidNode g 0]
  refine ⟨?_, ?_, hg, ?_⟩
  · have := hshape.1
    rw [hc1] at this
    simpa [bulk_add_nodes_core] using this
  · have := hshape.2.1
    rw [hc2] at this
    simpa [bulk_add_nodes_core] using this
  · have hnum := addValid_fold_numNodes specs g hfresh hnodup
    rw [validIds_length, hval] at hnum
    unfold bulk_add_nodes
    rw [hz]
    simpa [hg] using hnum

/-- The batch used to witness C6: three valid specs, two invalid
(missing `label` and missing `node_id`). -/
def exSpecsC6 : List NodeSpec :=
  [⟨some "c1", some "condition", some "Hypertension", []⟩,
   ⟨some "m1", some "medication", none, []⟩,
   ⟨some "c2", some "condition", some "Diabetes", []⟩,
   ⟨none, some "condition", some "Asthma", []⟩,
   ⟨some "t1", some "clinical_trial", some "Trial", []⟩]

/-- C6 witness: hypotheses and conclusion of
`bulk_add_nodes_partial_success` at a concrete initialized graph and
batch. -/
theorem bulk_add_nodes_partial_success_witness :
    (exGraphC4.numNodes ≠ 0 ∧
      exSpecsC6.countP (fun s => s.validB) = 3 ∧
      exSpecsC6.countP (fun s => !s.validB) = 2 ∧
      (∀ id ∈ validIds exSpecsC6, exGraphC4.hasNode id = false) ∧
      (validIds exSpecsC6).Nodup) ∧
    ((bulk_add_nodes_core exGraphC4 exSpecsC6).errors.length = 2 ∧
      (bulk_add_nodes_core exGraphC4 exSpecsC6).added_nodes.length = 3 ∧
      (bulk_add_nodes_core exGraphC4 exSpecsC6).graph =
        exSpecsC6.foldl addValidNode exGraphC4 ∧
      (bulk_add_nodes exGraphC4 exSpecsC6).2.numNodes = exGraphC4.numNodes + 3) :=
  ⟨⟨by decide, by decide, by decide, by decide, by decide⟩,
    bulk_add_nodes_partial_success exGraphC4 exSpecsC6
      (by decide) (by decide) (by decide) (by decide) (by decide)⟩

/-! ## C10 — `research_articles_count` counts article-condition links

Claim (implicit, from the code): `get_patient_overview` computes
`research_articles_count` as the sum over the patient's
`HAS_CONDITION`-linked condition nodes of the number of `research_article`
predecessors of each condition (by any incoming edge), so an article
linked to `k` of the patient's conditions is counted `k` times. -/

/-- All (article, condition) incidences counted by `get_patient_overview`:
for each of the patient's conditions, its `research_article` predecessors. -/
def articleCondLinks (g : Graph) (pid : String) : List (String × String) :=
  (conditionNeighbors g pid).flatMap (fun c =>
    ((g.preds c).filter (fun p => dget (g.nodeAttrs p) "node_type" ==
      some (Value.str "research_article"))).map (fun a => (a, c)))

theorem preds_nodup (g : Graph) (hWF : g.wellFormed) (c : String) :
    (g.preds c).Nodup := by
  have hpairs : (g.edges.map (fun e => (e.1, e.2.1))).Nodup := hWF.2.1
  have hsub : List.Sublist (g.edges.filter (fun e => e.2.1 == c)) g.edges :=
    List.filter_sublist _
  have hpairs' : ((g.edges.filter (fun e => e.2.1 == c)).map
      (fun e => (e.1, e.2.1))).Nodup :=
    hpairs.sublist (hsub.map _)
  have hsnd : ∀ x ∈ (g.edges.filter (fun e => e.2.1 == c)).map
      (fun e => (e.1, e.2.1)), x.2 = c := by
    intro x hx
    rcases List.mem_map.mp hx with ⟨e, he, rfl⟩
    have := List.of_mem_filter he
    simpa using this
  have : (((g.edges.filter (fun e => e.2.1 == c)).map
      (fun e => (e.1, e.2.1))).map Prod.fst).Nodup := by
    refine List.Nodup.map_on ?_ hpairs'
    intro x hx y hy hxy
    have h1 := hsnd x hx
    have h2 := hsnd y hy
    exact Prod.ext hxy (h1.trans h2.symm)
  simpa [Graph.preds, List.map_map, Function.comp] using this


theorem count_of_nodup (l : List String) (a : String) (h : l.Nodup) :
    l.countP (fun x => x == a) = if a ∈ l then 1 else 0 := by
  rw [show l.countP (fun x => x == a) = l.count a from rfl]
  by_cases hm : a ∈ l
  · rw [if_pos hm]
    exact List.count_eq_one_of_mem h hm
  · rw [if_neg hm]
    exact List.count_eq_zero_of_not_mem hm

theorem length_flatMap_eq_sum_lengths {α β : Type} (l : List α) (f : α → List β) :
    (l.flatMap f).length = (l.map (fun x => (f x).length)).sum := by
  induction l with
  | nil => rfl
  | cons x tl ih => simp [List.flatMap_cons, ih]

/-- C10: `research_articles_count` equals the per-condition sum of
article-predecessor counts, hence the total number of (article, condition)
incidences; and each article contributes once per linked condition of the
patient, so an article linked to `k` conditions is counted `k` times (and
only once per condition). -/
theorem research_count_counts_links (g : Graph) (pid : String) (r : Overview)
    (hWF : g.wellFormed) (hok : get_patient_overview g pid = .ok r) :
    r.research_articles_count =
      ((conditionNeighbors g pid).map (fun c => articlePredCount g c)).sum ∧
    r.research_articles_count = (articleCondLinks g pid).length ∧
    ∀ a, (articleCondLinks g pid).countP (fun x => x.1 == a) =
      ((conditionNeighbors g pid).filter (fun c =>
        ((g.preds c).filter (fun p => dget (g.nodeAttrs p) "node_type" ==
          some (Value.str "research_article"))).contains a)).length := by
  have hcount : r.research_articles_count =
      ((conditionNeighbors g pid).map (fun c => articlePredCount g c)).sum := by
    unfold get_patient_overview at hok
    by_cases h0 : (g.numNodes == 0) = true
    · rw [h0] at hok; simp at hok
    · rw [Bool.not_eq_true] at h0
      rw [h0] at hok
      simp only [Bool.false_eq_true, if_false] at hok
      by_cases h1 : (!g.hasNode pid) = true
      · rw [h1] at hok; simp at hok
      · rw [Bool.not_eq_true] at h1
        rw [h1] at hok
        simp only [Bool.false_eq_true, if_false, OverviewOut.ok.injEq] at hok
        cases hok
        simp only [List.map_map]
        rfl
  refine ⟨hcount, ?_, ?_⟩
  · rw [hcount, articleCondLinks, length_flatMap_eq_sum_lengths]
    simp [articlePredCount]
  · intro a
    have hnodup : ∀ c, ((g.preds c).filter
        (fun p => dget (g.nodeAttrs p) "node_type" ==
          some (Value.str "research_article"))).Nodup :=
      fun c => (preds_nodup g hWF c).filter _
    rw [articleCondLinks]
    generalize conditionNeighbors g pid = L
    induction L with
    | nil => rfl
    | cons c tl ih =>
      rw [List.flatMap_cons, List.countP_append, ih, List.filter_cons,
        List.countP_map]
      have hcnt := count_of_nodup _ a (hnodup c)
      by_cases hc : a ∈ (g.preds c).filter
          (fun p => dget (g.nodeAttrs p) "node_type" ==
            some (Value.str "research_article"))
      · rw [show ((fun x : String × String => x.1 == a) ∘ (fun a' => (a', c))) =
            (fun x => x == a) from rfl, hcnt, if_pos hc]
        have : (((g.preds c).filter (fun p => dget (g.nodeAttrs p) "node_type" ==
            some (Value.str "research_article"))).contains a) = true := by
          exact List.elem_eq_true_of_mem hc
        rw [this]
        simp [Nat.add_comm]
      · rw [show ((fun x : String × String => x.1 == a) ∘ (fun a' => (a', c))) =
            (fun x => x == a) from rfl, hcnt, if_neg hc]
        have : (((g.preds c).filter (fun p => dget (g.nodeAttrs p) "node_type" ==
            some (Value.str "research_article"))).contains a) = false := by
          rw [← Bool.not_eq_true]
          intro hcon
          exact hc (List.mem_of_elem_eq_true hcon)
        rw [this]
        simp

/-- The graph used to witness C10: one article `A1` linked to both of the
patient's two conditions. -/
def exGraphC10 : Graph :=
  { nodes := [("P1", [("node_type", Value.str "patient"),
                      ("name", Value.str "Alice"),
                      ("label", Value.str "Patient: Alice")]),
              ("C1", [("node_type", Value.str "condition"),
                      ("label", Value.str "Hypertension")]),
              ("C2", [("node_type", Value.str "condition"),
                      ("label", Value.str "Diabetes")]),
              ("A1", [("node_type", Value.str "research_article"),
                      ("label", Value.str "Study")])],
    edges := [("P1", "C1", [("relationship_type", Value.str "HAS_CONDITION")]),
              ("P1", "C2", [("relationship_type", Value.str "HAS_CONDITION")]),
              ("A1", "C1", [("relationship_type", Value.str "STUDIES")]),
              ("A1", "C2", [("relationship_type", Value.str "STUDIES")])] }

/-- The overview document `get_patient_overview` yields on `exGraphC10`:
the single article is counted twice. -/
def exOverviewC10 : Overview :=
  { patient_id := "P1", patient_name := some (Value.str "Alice"),
    conditions := [⟨"C1", some (Value.str "Hypertension"), none⟩,
                   ⟨"C2", some (Value.str "Diabetes"), none⟩],
    medications := [], research_articles_count := 2,
    total_nodes := 4, total_relationships := 4 }

/-- C10 witness: hypotheses and conclusion of
`research_count_counts_links` at `exGraphC10`, with the per-article count
instantiated at the doubly-linked article `A1`. -/
theorem research_count_counts_links_witness :
    (exGraphC10.wellFormed ∧
      get_patient_overview exGraphC10 "P1" = .ok exOverviewC10) ∧
    (exOverviewC10.research_articles_count =
      ((conditionNeighbors exGraphC10 "P1").map
        (fun c => articlePredCount exGraphC10 c)).sum ∧
    exOverviewC10.research_articles_count =
      (articleCondLinks exGraphC10 "P1").length ∧
    (articleCondLinks exGraphC10 "P1").countP (fun x => x.1 == "A1") =
      ((conditionNeighbors exGraphC10 "P1").filter (fun c =>
        ((exGraphC10.preds c).filter
          (fun p => dget (exGraphC10.nodeAttrs p) "node_type" ==
            some (Value.str "research_article"))).contains "A1")).length) :=
  ⟨⟨by decide, by decide⟩,
    (research_count_counts_links exGraphC10 "P1" exOverviewC10
      (by decide) (by decide)).1,
    (research_count_counts_links exGraphC10 "P1" exOverviewC10
      (by decide) (by decide)).2.1,
    (research_count_counts_links exGraphC10 "P1" exOverviewC10
      (by decide) (by decide)).2.2 "A1"⟩

/-! ## C5 — round-tripping through the canonical node-link JSON

Claim: for every non-empty graph, `load(save(G))` through the canonical
node-link JSON yields the same node count, edge count, and identical
attribute keys and values.  `node_link_data` overwrites a node attribute
named `"id"` (and edge attributes named `"source"`/`"target"`) with the
node id, and `node_link_graph` strips those keys on reload, so such
attributes are lost; for graphs without those reserved keys the round
trip is the identity. -/

theorem dset_absent (d : Attrs) (k : String) (v : Value)
    (h : dhas d k = false) : dset d k v = d ++ [(k, v)] := by
  induction d with
  | nil => rfl
  | cons p t ih =>
    rcases p with ⟨k1, v1⟩
    simp only [dhas, Bool.or_eq_false_iff] at h
    simp [dset, h.1, ih h.2,
      show ¬ k1 = k from by simpa using h.1]

theorem dhas_append (d1 d2 : Attrs) (k : String) :
    dhas (d1 ++ d2) k = (dhas d1 k || dhas d2 k) := by
  induction d1 with
  | nil => rfl
  | cons p t ih => simp [dhas, ih, Bool.or_assoc]

theorem dstrip_absent (d : Attrs) (k : String) (h : dhas d k = false) :
    dstrip d k = d := by
  unfold dstrip
  induction d with
  | nil => rfl
  | cons p t ih =>
    rcases p with ⟨k1, v1⟩
    simp only [dhas, Bool.or_eq_false_iff] at h
    rw [List.filter_cons, if_pos (show ((k1, v1).1 != k) = true by
        simpa using beq_eq_false_iff_ne.mp h.1),
      ih h.2]

theorem dstrip_append (d1 d2 : Attrs) (k : String) :
    dstrip (d1 ++ d2) k = dstrip d1 k ++ dstrip d2 k := by
  simp [dstrip, List.filter_append]

theorem dget_append_absent (d1 d2 : Attrs) (k : String)
    (h : dhas d1 k = false) : dget (d1 ++ d2) k = dget d2 k := by
  induction d1 with
  | nil => rfl
  | cons p t ih =>
    rcases p with ⟨k1, v1⟩
    simp only [dhas, Bool.or_eq_false_iff] at h
    simp [dget_cons, ih h.2, h.1]

/-- The encoded form of one node entry, explicitly: the attribute dict
with `("id", node id)` appended (when no `"id"` attribute was present). -/
theorem encode_node_entry (n : String) (a : Attrs) (h : dhas a "id" = false) :
    dset a "id" (Value.str n) = a ++ [("id", Value.str n)] :=
  dset_absent a "id" (Value.str n) h

theorem decode_node_entry (n : String) (a : Attrs) (i : Nat)
    (h : dhas a "id" = false) :
    idOfEntry i (dset a "id" (Value.str n)) = n ∧
    dstrip (dset a "id" (Value.str n)) "id" = a := by
  rw [encode_node_entry n a h]
  constructor
  · rw [idOfEntry, dget_append_absent _ _ _ h]
    rfl
  · rw [dstrip_append, dstrip_absent a _ h]
    simp [dstrip]

theorem decode_link_entry (u v : String) (a : Attrs)
    (hs : dhas a "source" = false) (ht : dhas a "target" = false) :
    endpointOfEntry
      (dset (dset a "source" (Value.str u)) "target" (Value.str v)) "source" = u ∧
    endpointOfEntry
      (dset (dset a "source" (Value.str u)) "target" (Value.str v)) "target" = v ∧
    dstrip (dstrip
      (dset (dset a "source" (Value.str u)) "target" (Value.str v)) "source")
      "target" = a := by
  have h1 : dset a "source" (Value.str u) = a ++ [("source", Value.str u)] :=
    dset_absent _ _ _ hs
  have h2 : dhas (a ++ [("source", Value.str u)]) "target" = false := by
    rw [dhas_append, ht]
    rfl
  rw [h1, dset_absent _ _ _ h2]
  refine ⟨?_, ?_, ?_⟩
  · rw [endpointOfEntry, List.append_assoc, dget_append_absent _ _ _ hs]
    rfl
  · rw [endpointOfEntry, List.append_assoc, dget_append_absent _ _ _ ht]
    rfl
  · rw [List.append_assoc, dstrip_append, dstrip_absent a _ hs]
    rw [dstrip_append, dstrip_absent a _ ht]
    simp [dstrip]

theorem hasEdge_append_single (g : Graph) (u v : String) (a : Attrs)
    (x y : String) :
    ({ g with edges := g.edges ++ [(u, v, a)] } : Graph).hasEdge x y =
      (g.hasEdge x y || (x == u && y == v)) := by
  simp only [Graph.hasEdge, List.any_append, List.any_cons, List.any_nil]
  by_cases hx : u = x
  · by_cases hy : v = y
    · simp [hx, hy]
    · rw [beq_eq_false_iff_ne.mpr (Ne.symm hy), beq_eq_false_iff_ne.mpr hy]
      simp [hx]
  · rw [beq_eq_false_iff_ne.mpr (Ne.symm hx), beq_eq_false_iff_ne.mpr hx]
    simp

theorem decode_nodes_fold (l : List (String × Attrs)) (gacc : Graph) (i0 : Nat)
    (hfresh : ∀ p ∈ l, gacc.hasNode p.1 = false)
    (hnodup : (l.map Prod.fst).Nodup)
    (hid : ∀ p ∈ l, dhas p.2 "id" = false) :
    ((l.map (fun p => dset p.2 "id" (Value.str p.1))).enumFrom i0).foldl
      (fun g ie => g.addNode (idOfEntry ie.1 ie.2) (dstrip ie.2 "id")) gacc =
    { gacc with nodes := gacc.nodes ++ l } := by
  induction l generalizing gacc i0 with
  | nil => simp
  | cons p tl ih =>
    rcases p with ⟨n, a⟩
    have hida : dhas a "id" = false := hid (n, a) (by simp)
    have hdec := decode_node_entry n a i0 hida
    simp only [List.map_cons, List.enumFrom, List.foldl_cons]
    rw [hdec.1, hdec.2, addNode_fresh gacc n a (hfresh (n, a) (by simp))]
    have hfresh' : ∀ q ∈ tl,
        ({ gacc with nodes := gacc.nodes ++ [(n, a)] } : Graph).hasNode q.1 = false := by
      intro q hq
      rw [hasNode_append_single]
      have hne : q.1 ≠ n := by
        intro hcontra
        have hmem : q.1 ∈ tl.map Prod.fst := List.mem_map_of_mem Prod.fst hq
        rw [hcontra] at hmem
        exact (List.nodup_cons.mp hnodup).1 hmem
      simp [hfresh q (List.mem_cons_of_mem _ hq), hne]
    rw [ih _ (i0 + 1) hfresh' (List.nodup_cons.mp hnodup).2
      (fun p hp => hid p (List.mem_cons_of_mem _ hp))]
    simp

theorem decode_links_fold (l : List (String × String × Attrs)) (gacc : Graph)
    (hnodes : ∀ e ∈ l, gacc.hasNode e.1 = true ∧ gacc.hasNode e.2.1 = true)
    (hfresh : ∀ e ∈ l, gacc.hasEdge e.1 e.2.1 = false)
    (hnodup : (l.map (fun e => (e.1, e.2.1))).Nodup)
    (hclean : ∀ e ∈ l, dhas e.2.2 "source" = false ∧ dhas e.2.2 "target" = false) :
    (l.map (fun e =>
        dset (dset e.2.2 "source" (Value.str e.1)) "target" (Value.str e.2.1))).foldl
      (fun g d => g.addEdge (endpointOfEntry d "source") (endpointOfEntry d "target")
        (dstrip (dstrip d "source") "target")) gacc =
    { gacc with edges := gacc.edges ++ l } := by
  induction l generalizing gacc with
  | nil => simp
  | cons e tl ih =>
    rcases e with ⟨u, v, a⟩
    have hc := hclean (u, v, a) (by simp)
    have hdec := decode_link_entry u v a hc.1 hc.2
    simp only [List.map_cons, List.foldl_cons]
    rw [hdec.1, hdec.2.1, hdec.2.2]
    have hn := hnodes (u, v, a) (by simp)
    rw [addEdge_fresh gacc u v a hn.1 hn.2 (hfresh (u, v, a) (by simp))]
    have hnodes' : ∀ e ∈ tl,
        ({ gacc with edges := gacc.edges ++ [(u, v, a)] } : Graph).hasNode e.1 = true ∧
        ({ gacc with edges := gacc.edges ++ [(u, v, a)] } : Graph).hasNode e.2.1 = true := by
      intro e he
      exact hnodes e (List.mem_cons_of_mem _ he)
    have hfresh' : ∀ e ∈ tl,
        ({ gacc with edges := gacc.edges ++ [(u, v, a)] } : Graph).hasEdge e.1 e.2.1 =
          false := by
      intro e he
      rw [hasEdge_append_single, hfresh e (List.mem_cons_of_mem _ he)]
      have hne : (e.1, e.2.1) ≠ (u, v) := by
        intro hcontra
        have hmem : (e.1, e.2.1) ∈ tl.map (fun e => (e.1, e.2.1)) :=
          List.mem_map_of_mem (fun e => (e.1, e.2.1)) he
        rw [hcontra] at hmem
        exact (List.nodup_cons.mp hnodup).1 hmem
      by_cases h1 : e.1 = u
      · have h2 : e.2.1 ≠ v := fun h2 => hne (by rw [h1, h2])
        rw [beq_eq_false_iff_ne.mpr h2]
        simp
      · rw [beq_eq_false_iff_ne.mpr h1]
        simp
    rw [ih _ hnodes' hfresh' (List.nodup_cons.mp hnodup).2
      (fun e he => hclean e (List.mem_cons_of_mem _ he))]
    simp

/-- C5 amended: for every well-formed graph none of whose node attribute
dicts uses the reserved key `"id"` and none of whose edge attribute dicts
uses `"source"` or `"target"`, decoding the canonical node-link document
produced for it restores the graph exactly — in particular the same node
count, edge count, and all attribute keys and values. -/
theorem node_link_roundtrip (g : Graph) (hWF : g.wellFormed)
    (hid : ∀ p ∈ g.nodes, dhas p.2 "id" = false)
    (hst : ∀ e ∈ g.edges, dhas e.2.2 "source" = false ∧
      dhas e.2.2 "target" = false) :
    node_link_graph (node_link_data g) = g ∧
    (node_link_graph (node_link_data g)).numNodes = g.numNodes ∧
    (node_link_graph (node_link_data g)).numEdges = g.numEdges := by
  have hmain : node_link_graph (node_link_data g) = g := by
    unfold node_link_graph node_link_data
    have hn := decode_nodes_fold g.nodes Graph.empty 0
      (fun p _ => rfl) hWF.1 hid
    rw [show (g.nodes.map (fun p => dset p.2 "id" (Value.str p.1))).enum =
      (g.nodes.map (fun p => dset p.2 "id" (Value.str p.1))).enumFrom 0 from rfl]
    rw [hn]
    have hmid : ({ Graph.empty with nodes := Graph.empty.nodes ++ g.nodes } :
        Graph) = { nodes := g.nodes, edges := [] } := by
      simp [Graph.empty]
    rw [hmid]
    have hl := decode_links_fold g.edges { nodes := g.nodes, edges := [] }
      (fun e he => hWF.2.2.1 e he) (fun e _ => rfl) hWF.2.1 hst
    rw [hl]
    simp
  exact ⟨hmain, by rw [hmain], by rw [hmain]⟩

/-- The witness graph for the amended C5: a non-empty well-formed graph
with ordinary attributes. -/
def exGraphC5ok : Graph :=
  { nodes := [("P1", [("node_type", Value.str "patient"),
                      ("name", Value.str "Alice"),
                      ("label", Value.str "Patient: Alice")]),
              ("C1", [("node_type", Value.str "condition"),
                      ("label", Value.str "Hypertension"),
                      ("symptoms", Value.strList ["headache"])])],
    edges := [("P1", "C1", [("relationship_type", Value.str "HAS_CONDITION"),
                            ("confidence", Value.int 1)])] }

/-- C5 amended witness: hypotheses and conclusion of `node_link_roundtrip`
at a concrete graph. -/
theorem node_link_roundtrip_witness :
    (exGraphC5ok.wellFormed ∧
      (∀ p ∈ exGraphC5ok.nodes, dhas p.2 "id" = false) ∧
      (∀ e ∈ exGraphC5ok.edges, dhas e.2.2 "source" = false ∧
        dhas e.2.2 "target" = false)) ∧
    (node_link_graph (node_link_data exGraphC5ok) = exGraphC5ok ∧
      (node_link_graph (node_link_data exGraphC5ok)).numNodes =
        exGraphC5ok.numNodes ∧
      (node_link_graph (node_link_data exGraphC5ok)).numEdges =
        exGraphC5ok.numEdges) :=
  ⟨⟨by decide, by decide, by decide⟩,
    node_link_roundtrip exGraphC5ok (by decide) (by decide) (by decide)⟩

/-- The counterexample graph for C5 as stated: one node carrying an
attribute named `"id"`. -/
def exGraphC5 : Graph :=
  { nodes := [("n1", [("node_type", Value.str "patient"),
                      ("label", Value.str "L"),
                      ("id", Value.str "custom")])],
    edges := [] }

/-- C5 counterexample: for this non-empty (and well-formed) graph the
round trip preserves the node and edge counts but silently drops the
node attribute `"id"`, so the loaded graph does not have identical
attribute keys and values. -/
theorem node_link_roundtrip_loses_id_attr :
    exGraphC5.wellFormed ∧
    exGraphC5.numNodes ≠ 0 ∧
    (node_link_graph (node_link_data exGraphC5)).numNodes = exGraphC5.numNodes ∧
    (node_link_graph (node_link_data exGraphC5)).numEdges = exGraphC5.numEdges ∧
    dget (exGraphC5.nodeAttrs "n1") "id" = some (Value.str "custom") ∧
    dget ((node_link_graph (node_link_data exGraphC5)).nodeAttrs "n1") "id" =
      none ∧
    node_link_graph (node_link_data exGraphC5) ≠ exGraphC5 := by
  refine ⟨by decide, by decide, by decide, by decide, by decide, by decide,
    by decide⟩

/-! ## Paths and the breadth sets

`kpath nf n x y` is the specification-side notion of an `n`-step directed
path along a neighbor function; the breadth sets `iterStep` computed by
the reachability model contain exactly the targets of such paths. -/

/-- An `n`-step path along `nf` from `x` to `y`. -/
def kpath (nf : String → List String) : Nat → String → String → Prop
  | 0, x, y => x = y
  | n + 1, x, y => ∃ z, z ∈ nf x ∧ kpath nf n z y

theorem kpath_succ_last (nf : String → List String) (n : Nat) (x y : String) :
    kpath nf (n + 1) x y ↔ ∃ w, kpath nf n x w ∧ y ∈ nf w := by
  induction n generalizing x with
  | zero =>
    constructor
    · rintro ⟨z, hz, hzy⟩
      cases hzy
      exact ⟨x, rfl, hz⟩
    · rintro ⟨w, hw, hy⟩
      cases hw
      exact ⟨y, hy, rfl⟩
  | succ n ih =>
    constructor
    · rintro ⟨z, hz, hzy⟩
      obtain ⟨w, hw, hy⟩ := (ih z).mp hzy
      exact ⟨w, ⟨z, hz, hw⟩, hy⟩
    · rintro ⟨w, ⟨z, hz, hw⟩, hy⟩
      exact ⟨z, hz, (ih z).mpr ⟨w, hw, hy⟩⟩

theorem mem_iterStep_iff (nf : String → List String) (n : Nat) (s : Finset String) :
    ∀ y, y ∈ iterStep nf n s ↔ ∃ x ∈ s, ∃ k ≤ n, kpath nf k x y := by
  induction n with
  | zero =>
    intro y
    constructor
    · intro hy
      exact ⟨y, hy, 0, Nat.le_refl 0, rfl⟩
    · rintro ⟨x, hx, k, hk, hp⟩
      have hk0 : k = 0 := Nat.le_zero.mp hk
      cases hk0
      cases hp
      exact hx
  | succ n ih =>
    intro y
    constructor
    · intro hy
      rcases Finset.mem_union.mp hy with hy | hy
      · obtain ⟨x, hx, k, hk, hp⟩ := (ih y).mp hy
        exact ⟨x, hx, k, Nat.le_succ_of_le hk, hp⟩
      · obtain ⟨w, hwI, hynf⟩ := Finset.mem_biUnion.mp hy
        obtain ⟨x, hx, k, hk, hp⟩ := (ih w).mp hwI
        refine ⟨x, hx, k + 1, Nat.succ_le_succ hk, ?_⟩
        exact (kpath_succ_last nf k x y).mpr ⟨w, hp, List.mem_toFinset.mp hynf⟩
    · rintro ⟨x, hx, k, hk, hp⟩
      by_cases hkn : k ≤ n
      · exact Finset.mem_union_left _ ((ih y).mpr ⟨x, hx, k, hkn, hp⟩)
      · have hk1 : k = n + 1 := by omega
        cases hk1
        obtain ⟨w, hw, hy⟩ := (kpath_succ_last nf n x y).mp hp
        refine Finset.mem_union_right _ ?_
        exact Finset.mem_biUnion.mpr
          ⟨w, (ih w).mpr ⟨x, hx, n, Nat.le_refl n, hw⟩, List.mem_toFinset.mpr hy⟩

theorem iterStep_isolated (nf : String → List String) (x : String)
    (h : nf x = []) (n : Nat) : iterStep nf n ({x} : Finset String) = {x} := by
  induction n with
  | zero => rfl
  | succ n ih =>
    show stepSet nf (iterStep nf n {x}) = {x}
    rw [ih]
    simp [stepSet, h]

theorem adjU_eq_nil_of_degree_zero (g : Graph) (o : String)
    (h : g.degree o = 0) : g.adjU o = [] := by
  unfold Graph.degree Graph.inDegree Graph.outDegree at h
  have h1 : (g.edges.filter (fun e => e.1 == o)).length = 0 := by omega
  have h2 : (g.edges.filter (fun e => e.2.1 == o)).length = 0 := by omega
  rw [List.length_eq_zero] at h1 h2
  unfold Graph.adjU Graph.succs Graph.preds
  rw [h1, h2]
  rfl

theorem degree_ne_zero_of_mem_adjU (g : Graph) (w o : String)
    (h : o ∈ g.adjU w) : g.degree o ≠ 0 := by
  intro hdeg
  unfold Graph.degree at hdeg
  rcases List.mem_append.mp h with hs | hp
  · rcases List.mem_map.mp hs with ⟨e, he, heq⟩
    have hedge : e ∈ g.edges := (List.mem_filter.mp he).1
    have h1 : g.inDegree o = 0 := by omega
    unfold Graph.inDegree at h1
    rw [List.length_eq_zero] at h1
    have : e ∈ g.edges.filter (fun e' => e'.2.1 == o) :=
      List.mem_filter.mpr ⟨hedge, by simp [heq]⟩
    rw [h1] at this
    exact absurd this (List.not_mem_nil e)
  · rcases List.mem_map.mp hp with ⟨e, he, heq⟩
    have hedge : e ∈ g.edges := (List.mem_filter.mp he).1
    have h1 : g.outDegree o = 0 := by omega
    unfold Graph.outDegree at h1
    rw [List.length_eq_zero] at h1
    have : e ∈ g.edges.filter (fun e' => e'.1 == o) :=
      List.mem_filter.mpr ⟨hedge, by simp [heq]⟩
    rw [h1] at this
    exact absurd this (List.not_mem_nil e)

theorem not_mem_wkComponent_of_isolated (g : Graph) (f o : String)
    (hdeg : g.degree o = 0) (hfo : f ≠ o) : o ∉ g.wkComponent f := by
  intro hmem
  obtain ⟨x, hx, k, _, hp⟩ :=
    (mem_iterStep_iff g.adjU g.closureFuel {f} o).mp hmem
  rw [Finset.mem_singleton] at hx
  subst hx
  cases k with
  | zero => exact hfo hp
  | succ m =>
    obtain ⟨w, _, hy⟩ := (kpath_succ_last g.adjU m x o).mp hp
    exact degree_ne_zero_of_mem_adjU g w o hy hdeg

theorem is_weakly_connected_false_of_isolated (g : Graph) (o p : String)
    (hdeg : g.degree o = 0) (hop : o ≠ p)
    (ho : o ∈ g.nodeIds) (hp : p ∈ g.nodeIds) :
    g.is_weakly_connected = false := by
  rcases hnodes : g.nodes with _ | ⟨q, rest⟩
  · unfold Graph.is_weakly_connected
    rw [hnodes]
  · unfold Graph.is_weakly_connected
    rw [hnodes]
    by_cases hq : q.1 = o
    · refine List.all_eq_false.mpr ⟨p, hp, ?_⟩
      rw [hq, Graph.wkComponent,
        iterStep_isolated g.adjU o (adjU_eq_nil_of_degree_zero g o hdeg)]
      simp [Ne.symm hop]
    · refine List.all_eq_false.mpr ⟨o, ho, ?_⟩
      simp only [decide_eq_true_eq]
      exact not_mem_wkComponent_of_isolated g q.1 o hdeg hq

/-! ## C1 — validation of a graph with one isolated node

Claim: a graph with exactly one patient node, exactly one isolated
(degree-0) non-patient node, and the remaining nodes forming a single
weakly connected structure validates with `is_valid=true` and exactly one
warning about the orphan.  In the code the isolated node also makes the
graph weakly disconnected, which is a *critical* issue, so `is_valid` is
false: the validator reports the orphan warning *and* the
disconnected-components critical issue. -/

/-- The counterexample graph for C1 as stated: patient `P1` connected to
`A`, plus the isolated non-patient node `B`. -/
def exGraphC1 : Graph :=
  { nodes := [("P1", [("node_type", Value.str "patient"),
                      ("name", Value.str "Alice"),
                      ("label", Value.str "Patient: Alice")]),
              ("A", [("node_type", Value.str "condition"),
                      ("label", Value.str "Hypertension")]),
              ("B", [("node_type", Value.str "condition"),
                      ("label", Value.str "Isolated")])],
    edges := [("P1", "A", [("relationship_type", Value.str "HAS_CONDITION")])] }

/-- C1 counterexample: `exGraphC1` satisfies every hypothesis of the
claim (one patient, one isolated non-patient node, the rest one weakly
connected structure, all labels present), yet `validate_graph_structure`
returns `is_valid = false` with a critical issue — not `is_valid = true`. -/
theorem validate_isolated_node_not_valid :
    patientNodes exGraphC1 = ["P1"] ∧
    exGraphC1.nodeIds.filter (fun n => exGraphC1.degree n == 0) = ["B"] ∧
    dget (exGraphC1.nodeAttrs "B") "node_type" ≠ some (Value.str "patient") ∧
    (∀ n ∈ exGraphC1.nodeIds, n ≠ "B" → n ∈ exGraphC1.wkComponent "P1") ∧
    validate_graph_structure exGraphC1 =
      .ok { is_valid := false,
            critical_issues := [componentsIssue 2],
            warnings := [orphanWarning [orphanDesc exGraphC1 "B"]],
            total_issues := 1, total_warnings := 1 } := by
  refine ⟨by decide, by decide, by decide, by decide, by decide⟩

/-- C1 amended: on every graph with exactly one patient node `p`, exactly
one degree-0 node `o` which is not the patient, every other node weakly
connected to the patient, and no missing labels, the validator returns
`is_valid = false` with exactly the orphan warning and exactly the
disconnected-components critical issue. -/
theorem validate_isolated_node_graph (g : Graph) (p o : String)
    (hpat : patientNodes g = [p])
    (horph : g.nodeIds.filter (fun n => g.degree n == 0) = [o])
    (hop : o ≠ p)
    (hconn : ∀ n ∈ g.nodeIds, n ≠ o → n ∈ g.wkComponent p)
    (hlabels : ∀ n ∈ g.nodeIds, valFalsy (dget (g.nodeAttrs n) "label") = false) :
    validate_graph_structure g =
      .ok { is_valid := false,
            critical_issues :=
              [componentsIssue g.number_weakly_connected_components],
            warnings := [orphanWarning [orphanDesc g o]],
            total_issues := 1, total_warnings := 1 } := by
  have hpmem : p ∈ g.nodeIds := by
    have : p ∈ patientNodes g := by rw [hpat]; exact List.mem_singleton_self p
    exact (List.mem_filter.mp this).1
  have homem : o ∈ g.nodeIds := by
    have : o ∈ g.nodeIds.filter (fun n => g.degree n == 0) := by
      rw [horph]; exact List.mem_singleton_self o
    exact (List.mem_filter.mp this).1
  have hdeg : g.degree o = 0 := by
    have : o ∈ g.nodeIds.filter (fun n => g.degree n == 0) := by
      rw [horph]; exact List.mem_singleton_self o
    have := (List.mem_filter.mp this).2
    simpa using this
  have hne : (g.numNodes == 0) = false := by
    have hnil : g.nodes ≠ [] := by
      intro hnil
      unfold Graph.nodeIds at hpmem
      rw [hnil] at hpmem
      exact absurd hpmem (by simp)
    simpa [Graph.numNodes] using hnil
  have hwc : g.is_weakly_connected = false :=
    is_weakly_connected_false_of_isolated g o p hdeg hop homem hpmem
  have hlabfilter : g.nodeIds.filter
      (fun n => valFalsy (dget (g.nodeAttrs n) "label")) = [] :=
    List.filter_eq_nil.mpr (fun n hn => by simp [hlabels n hn])
  unfold validate_graph_structure
  rw [hne, hpat, horph, hwc, hlabfilter]
  simp

/-- C1 amended witness: hypotheses and conclusion of
`validate_isolated_node_graph` at the concrete graph `exGraphC1`. -/
theorem validate_isolated_node_graph_witness :
    (patientNodes exGraphC1 = ["P1"] ∧
      exGraphC1.nodeIds.filter (fun n => exGraphC1.degree n == 0) = ["B"] ∧
      "B" ≠ "P1" ∧
      (∀ n ∈ exGraphC1.nodeIds, n ≠ "B" → n ∈ exGraphC1.wkComponent "P1") ∧
      (∀ n ∈ exGraphC1.nodeIds,
        valFalsy (dget (exGraphC1.nodeAttrs n) "label") = false)) ∧
    validate_graph_structure exGraphC1 =
      .ok { is_valid := false,
            critical_issues :=
              [componentsIssue exGraphC1.number_weakly_connected_components],
            warnings := [orphanWarning [orphanDesc exGraphC1 "B"]],
            total_issues := 1, total_warnings := 1 } :=
  ⟨⟨by decide, by decide, by decide, by decide, by decide⟩,
    validate_isolated_node_graph exGraphC1 "P1" "B"
      (by decide) (by decide) (by decide) (by decide) (by decide)⟩

/-! ## C2 / C9 — analysis of `merge_duplicate_nodes`

Shared machinery: an explicit characterization of the graph and counters
produced by the two migration loops, valid whenever the duplicate has no
self-loop (a self-loop on the duplicate makes the loops transfer edges
that the final node removal deletes again, refuting C2 as stated). -/

theorem find?_append_none {α : Type} (l1 l2 : List α) (p : α → Bool)
    (h : l1.find? p = none) : (l1 ++ l2).find? p = l2.find? p := by
  induction l1 with
  | nil => rfl
  | cons a t ih =>
    rw [List.find?_cons] at h
    rw [List.cons_append, List.find?_cons]
    cases hpa : p a
    · simp only [hpa] at h ⊢
      exact ih h
    · simp only [hpa] at h
      exact absurd h (by simp)

theorem find?_append_some {α : Type} (l1 l2 : List α) (p : α → Bool) (a : α)
    (h : l1.find? p = some a) : (l1 ++ l2).find? p = some a := by
  induction l1 with
  | nil => simp at h
  | cons b t ih =>
    rw [List.find?_cons] at h
    rw [List.cons_append, List.find?_cons]
    cases hpb : p b
    · simp only [hpb] at h ⊢
      exact ih h
    · simp only [hpb] at h ⊢
      exact h

theorem find?_filter_keep {α : Type} (l : List α) (p q : α → Bool)
    (h : ∀ a, p a = true → q a = true) :
    (l.filter q).find? p = l.find? p := by
  induction l with
  | nil => rfl
  | cons a t ih =>
    rw [List.filter_cons]
    rcases hpa : p a with _ | _
    · by_cases hqa : q a = true
      · rw [if_pos hqa, List.find?_cons, hpa, List.find?_cons, hpa, ih]
      · rw [if_neg hqa, List.find?_cons, hpa, ih]
    · have hqa := h a hpa
      rw [if_pos hqa, List.find?_cons, hpa, List.find?_cons, hpa]

theorem hasEdge_of_mem (g : Graph) (e : String × String × Attrs)
    (he : e ∈ g.edges) : g.hasEdge e.1 e.2.1 = true := by
  unfold Graph.hasEdge
  exact List.any_eq_true.mpr ⟨e, he, by simp⟩

theorem mem_of_hasEdge (g : Graph) (x y : String) (h : g.hasEdge x y = true) :
    ∃ a, (x, y, a) ∈ g.edges := by
  unfold Graph.hasEdge at h
  obtain ⟨e, he, hcond⟩ := List.any_eq_true.mp h
  rcases e with ⟨u, v, a⟩
  simp only [Bool.and_eq_true, beq_iff_eq] at hcond
  exact ⟨a, by rw [← hcond.1, ← hcond.2]; exact he⟩

theorem succs_nodup (g : Graph) (hWF : g.wellFormed) (w : String) :
    (g.succs w).Nodup := by
  have hpairs : (g.edges.map (fun e => (e.1, e.2.1))).Nodup := hWF.2.1
  have hsub : List.Sublist (g.edges.filter (fun e => e.1 == w)) g.edges :=
    List.filter_sublist _
  have hpairs' : ((g.edges.filter (fun e => e.1 == w)).map
      (fun e => (e.1, e.2.1))).Nodup :=
    hpairs.sublist (hsub.map _)
  have hfst : ∀ x ∈ (g.edges.filter (fun e => e.1 == w)).map
      (fun e => (e.1, e.2.1)), x.1 = w := by
    intro x hx
    rcases List.mem_map.mp hx with ⟨e, he, rfl⟩
    have := List.of_mem_filter he
    simpa using this
  have : (((g.edges.filter (fun e => e.1 == w)).map
      (fun e => (e.1, e.2.1))).map Prod.snd).Nodup := by
    refine List.Nodup.map_on ?_ hpairs'
    intro x hx y hy hxy
    have h1 := hfst x hx
    have h2 := hfst y hy
    exact Prod.ext (h1.trans h2.symm) hxy
  simpa [Graph.succs, List.map_map, Function.comp] using this

theorem edgeAttrs_append_no_match (g : Graph)
    (extra : List (String × String × Attrs)) (x y : String)
    (h : ∀ e ∈ extra, ¬(e.1 = x ∧ e.2.1 = y)) :
    ({ g with edges := g.edges ++ extra } : Graph).edgeAttrs x y =
      g.edgeAttrs x y := by
  unfold Graph.edgeAttrs
  have hextra : extra.find? (fun e => e.1 == x && e.2.1 == y) = none := by
    rw [List.find?_eq_none]
    intro e he
    have := h e he
    simp only [Bool.and_eq_true, beq_iff_eq]
    exact fun hc => this hc
  rcases hfind : g.edges.find? (fun e => e.1 == x && e.2.1 == y) with _ | e
  · rw [find?_append_none _ _ _ hfind, hextra, hfind]
  · rw [find?_append_some _ _ _ _ hfind, hfind]

theorem hasEdge_append_no_match (g : Graph)
    (extra : List (String × String × Attrs)) (x y : String)
    (h : ∀ e ∈ extra, ¬(e.1 = x ∧ e.2.1 = y)) :
    ({ g with edges := g.edges ++ extra } : Graph).hasEdge x y =
      g.hasEdge x y := by
  unfold Graph.hasEdge
  rw [List.any_append]
  have : extra.any (fun e => e.1 == x && e.2.1 == y) = false := by
    rw [List.any_eq_false]
    intro e he
    have := h e he
    simp only [Bool.and_eq_true, beq_iff_eq]
    exact fun hc => this hc
  rw [this, Bool.or_false]

theorem outEdges_append_no_src (g : Graph)
    (extra : List (String × String × Attrs)) (d : String)
    (h : ∀ e ∈ extra, e.1 ≠ d) :
    ({ g with edges := g.edges ++ extra } : Graph).outEdges d = g.outEdges d := by
  unfold Graph.outEdges
  have hnil : extra.filter (fun e => e.1 == d) = [] :=
    List.filter_eq_nil.mpr (fun e he => by simpa using h e he)
  rw [List.filter_append, hnil, List.append_nil]

/-- The incoming edges `(x, duplicate)` the in-loop actually migrates:
`x` is not the primary and `(x, primary)` does not already exist. -/
def inMigrated (g : Graph) (p d : String) : List (String × String) :=
  (g.inEdges d).filter (fun e => e.1 != p && !g.hasEdge e.1 p)

/-- The outgoing edges `(duplicate, y)` the out-loop actually migrates. -/
def outMigrated (g : Graph) (p d : String) : List (String × String) :=
  (g.outEdges d).filter (fun e => e.2 != p && !g.hasEdge p e.2)

/-- The edges the in-loop appends: `(x, primary)` carrying the attributes
of `(x, duplicate)`. -/
def inAdds (g : Graph) (p d : String) : List (String × String × Attrs) :=
  (inMigrated g p d).map (fun e => (e.1, p, g.edgeAttrs e.1 d))

/-- The edges the out-loop appends: `(primary, y)` carrying the attributes
of `(duplicate, y)`. -/
def outAdds (g : Graph) (p d : String) : List (String × String × Attrs) :=
  (outMigrated g p d).map (fun e => (p, e.2, g.edgeAttrs d e.2))

theorem hasNode_edges_irrelevant (g : Graph) (es : List (String × String × Attrs))
    (n : String) : ({ g with edges := es } : Graph).hasNode n = g.hasNode n := rfl

theorem mergeIn_fold (g : Graph) (p d : String) (hpd : p ≠ d)
    (l : List (String × String)) (gacc : Graph) (c : Nat)
    (H1 : ∀ e ∈ l, e.2 = d)
    (H2 : (l.map Prod.fst).Nodup)
    (H3 : ∀ e ∈ l, gacc.edgeAttrs e.1 d = g.edgeAttrs e.1 d)
    (H4 : ∀ e ∈ l, gacc.hasEdge e.1 p = g.hasEdge e.1 p)
    (H5p : gacc.hasNode p = true)
    (H5 : ∀ e ∈ l, gacc.hasNode e.1 = true) :
    l.foldl (mergeInStep p d) (gacc, c) =
      ({ gacc with
          edges := gacc.edges ++
            (l.filter (fun e => e.1 != p && !g.hasEdge e.1 p)).map
              (fun e => (e.1, p, g.edgeAttrs e.1 d)) },
        c + (l.filter (fun e => e.1 != p && !g.hasEdge e.1 p)).length) := by
  induction l generalizing gacc c with
  | nil => simp
  | cons e tl ih =>
    rcases e with ⟨x, t⟩
    have ht : t = d := H1 (x, t) (by simp)
    cases ht
    have htl1 : ∀ e ∈ tl, e.2 = d := fun e he => H1 e (List.mem_cons_of_mem _ he)
    have htl2 : (tl.map Prod.fst).Nodup := (List.nodup_cons.mp H2).2
    by_cases hxp : x = p
    · have hstep : mergeInStep p d (gacc, c) (x, d) = (gacc, c) := by
        unfold mergeInStep
        simp [hxp]
      rw [List.foldl_cons, hstep, List.filter_cons,
        if_neg (by simp [hxp])]
      exact ih gacc c htl1 htl2
        (fun e he => H3 e (List.mem_cons_of_mem _ he))
        (fun e he => H4 e (List.mem_cons_of_mem _ he))
        H5p (fun e he => H5 e (List.mem_cons_of_mem _ he))
    · have hgE : gacc.hasEdge x p = g.hasEdge x p := H4 (x, d) (by simp)
      have hattr : gacc.edgeAttrs x d = g.edgeAttrs x d := H3 (x, d) (by simp)
      cases hxpE : g.hasEdge x p
      · -- no (x, primary) edge yet: the loop appends one
        have hstep : mergeInStep p d (gacc, c) (x, d) =
            ({ gacc with edges := gacc.edges ++ [(x, p, g.edgeAttrs x d)] },
              c + 1) := by
          unfold mergeInStep
          rw [if_pos (by simp [hxp]), hattr, hgE, hxpE]
          simp only [Bool.not_false, if_true]
          rw [addEdge_fresh gacc x p (g.edgeAttrs x d)
            (H5 (x, d) (by simp)) H5p (by rw [hgE]; exact hxpE)]
        rw [List.foldl_cons, hstep]
        have hxnot : x ∉ tl.map Prod.fst := (List.nodup_cons.mp H2).1
        rw [ih ({ gacc with edges := gacc.edges ++ [(x, p, g.edgeAttrs x d)] })
          (c + 1) htl1 htl2
          (fun e he => by
            rw [edgeAttrs_append_no_match gacc [(x, p, g.edgeAttrs x d)] e.1 d
              (by intro e' he'
                  simp only [List.mem_singleton] at he'
                  subst he'
                  intro hc
                  exact hpd (by simpa using hc.2))]
            exact H3 e (List.mem_cons_of_mem _ he))
          (fun e he => by
            rw [hasEdge_append_no_match gacc [(x, p, g.edgeAttrs x d)] e.1 p
              (by intro e' he'
                  simp only [List.mem_singleton] at he'
                  subst he'
                  intro hc
                  have hx1 : x = e.1 := by simpa using hc.1
                  have hmem : e.1 ∈ tl.map Prod.fst :=
                    List.mem_map_of_mem Prod.fst he
                  rw [← hx1] at hmem
                  exact hxnot hmem)]
            exact H4 e (List.mem_cons_of_mem _ he))
          H5p (fun e he => H5 e (List.mem_cons_of_mem _ he))]
        rw [List.filter_cons, if_pos (by simp [hxp, hxpE])]
        simp only [List.map_cons, List.length_cons, Prod.mk.injEq]
        constructor
        · rw [List.append_assoc]
          rfl
        · omega
      · -- an (x, primary) edge already exists: skip
        have hstep : mergeInStep p d (gacc, c) (x, d) = (gacc, c) := by
          unfold mergeInStep
          rw [if_pos (by simp [hxp]), hgE, hxpE]
          simp
        rw [List.foldl_cons, hstep, List.filter_cons,
          if_neg (by simp [hxp, hxpE])]
        exact ih gacc c htl1 htl2
          (fun e he => H3 e (List.mem_cons_of_mem _ he))
          (fun e he => H4 e (List.mem_cons_of_mem _ he))
          H5p (fun e he => H5 e (List.mem_cons_of_mem _ he))

theorem mergeOut_fold (g : Graph) (p d : String) (hpd : p ≠ d)
    (l : List (String × String)) (gacc : Graph) (c : Nat)
    (H1 : ∀ e ∈ l, e.1 = d)
    (H2 : (l.map Prod.snd).Nodup)
    (H3 : ∀ e ∈ l, gacc.edgeAttrs d e.2 = g.edgeAttrs d e.2)
    (H4 : ∀ e ∈ l, gacc.hasEdge p e.2 = g.hasEdge p e.2)
    (H5p : gacc.hasNode p = true)
    (H5 : ∀ e ∈ l, gacc.hasNode e.2 = true) :
    l.foldl (mergeOutStep p d) (gacc, c) =
      ({ gacc with
          edges := gacc.edges ++
            (l.filter (fun e => e.2 != p && !g.hasEdge p e.2)).map
              (fun e => (p, e.2, g.edgeAttrs d e.2)) },
        c + (l.filter (fun e => e.2 != p && !g.hasEdge p e.2)).length) := by
  induction l generalizing gacc c with
  | nil => simp
  | cons e tl ih =>
    rcases e with ⟨s, y⟩
    have hs : s = d := H1 (s, y) (by simp)
    cases hs
    have htl1 : ∀ e ∈ tl, e.1 = d := fun e he => H1 e (List.mem_cons_of_mem _ he)
    have htl2 : (tl.map Prod.snd).Nodup := (List.nodup_cons.mp H2).2
    by_cases hyp : y = p
    · have hstep : mergeOutStep p d (gacc, c) (d, y) = (gacc, c) := by
        unfold mergeOutStep
        simp [hyp]
      rw [List.foldl_cons, hstep, List.filter_cons,
        if_neg (by simp [hyp])]
      exact ih gacc c htl1 htl2
        (fun e he => H3 e (List.mem_cons_of_mem _ he))
        (fun e he => H4 e (List.mem_cons_of_mem _ he))
        H5p (fun e he => H5 e (List.mem_cons_of_mem _ he))
    · have hgE : gacc.hasEdge p y = g.hasEdge p y := H4 (d, y) (by simp)
      have hattr : gacc.edgeAttrs d y = g.edgeAttrs d y := H3 (d, y) (by simp)
      cases hypE : g.hasEdge p y
      · have hstep : mergeOutStep p d (gacc, c) (d, y) =
            ({ gacc with edges := gacc.edges ++ [(p, y, g.edgeAttrs d y)] },
              c + 1) := by
          unfold mergeOutStep
          rw [if_pos (by simp [hyp]), hattr, hgE, hypE]
          simp only [Bool.not_false, if_true]
          rw [addEdge_fresh gacc p y (g.edgeAttrs d y)
            H5p (H5 (d, y) (by simp)) (by rw [hgE]; exact hypE)]
        rw [List.foldl_cons, hstep]
        have hynot : y ∉ tl.map Prod.snd := (List.nodup_cons.mp H2).1
        rw [ih ({ gacc with edges := gacc.edges ++ [(p, y, g.edgeAttrs d y)] })
          (c + 1) htl1 htl2
          (fun e he => by
            rw [edgeAttrs_append_no_match gacc [(p, y, g.edgeAttrs d y)] d e.2
              (by intro e' he'
                  simp only [List.mem_singleton] at he'
                  subst he'
                  intro hc
                  exact hpd (by simpa using hc.1))]
            exact H3 e (List.mem_cons_of_mem _ he))
          (fun e he => by
            rw [hasEdge_append_no_match gacc [(p, y, g.edgeAttrs d y)] p e.2
              (by intro e' he'
                  simp only [List.mem_singleton] at he'
                  subst he'
                  intro hc
                  have hy1 : y = e.2 := by simpa using hc.2
                  have hmem : e.2 ∈ tl.map Prod.snd :=
                    List.mem_map_of_mem Prod.snd he
                  rw [← hy1] at hmem
                  exact hynot hmem)]
            exact H4 e (List.mem_cons_of_mem _ he))
          H5p (fun e he => H5 e (List.mem_cons_of_mem _ he))]
        rw [List.filter_cons, if_pos (by simp [hyp, hypE])]
        simp only [List.map_cons, List.length_cons, Prod.mk.injEq]
        constructor
        · rw [List.append_assoc]
          rfl
        · omega
      · have hstep : mergeOutStep p d (gacc, c) (d, y) = (gacc, c) := by
          unfold mergeOutStep
          rw [if_pos (by simp [hyp]), hgE, hypE]
          simp
        rw [List.foldl_cons, hstep, List.filter_cons,
          if_neg (by simp [hyp, hypE])]
        exact ih gacc c htl1 htl2
          (fun e he => H3 e (List.mem_cons_of_mem _ he))
          (fun e he => H4 e (List.mem_cons_of_mem _ he))
          H5p (fun e he => H5 e (List.mem_cons_of_mem _ he))

theorem inEdges_nodes_irrelevant (g : Graph) (ns : List (String × Attrs))
    (d : String) : ({ g with nodes := ns } : Graph).inEdges d = g.inEdges d := rfl

theorem mergeNodes_any_id (g : Graph) (p d n : String) :
    (mergeNodes g p d).any (fun q => q.1 == n) =
      g.nodes.any (fun q => q.1 == n) := by
  unfold mergeNodes
  induction g.nodes with
  | nil => rfl
  | cons q t ih =>
    simp only [List.map_cons, List.any_cons]
    by_cases hq : q.1 = p
    · simp only [hq, beq_self_eq_true, if_true]
      rw [ih]
    · rw [if_neg (by simp [hq])]
      rw [ih]

theorem mem_inEdges (g : Graph) (d : String) (e : String × String)
    (he : e ∈ g.inEdges d) : e.2 = d ∧ ∃ a, (e.1, d, a) ∈ g.edges := by
  unfold Graph.inEdges at he
  rcases List.mem_map.mp he with ⟨e', he', rfl⟩
  have hmem := List.mem_filter.mp he'
  have htgt : e'.2.1 = d := by simpa using hmem.2
  refine ⟨htgt, ⟨e'.2.2, ?_⟩⟩
  rw [← htgt]
  exact hmem.1

theorem mem_outEdges (g : Graph) (d : String) (e : String × String)
    (he : e ∈ g.outEdges d) : e.1 = d ∧ ∃ a, (d, e.2, a) ∈ g.edges := by
  unfold Graph.outEdges at he
  rcases List.mem_map.mp he with ⟨e', he', rfl⟩
  have hmem := List.mem_filter.mp he'
  have hsrc : e'.1 = d := by simpa using hmem.2
  refine ⟨hsrc, ⟨e'.2.2, ?_⟩⟩
  rw [← hsrc]
  exact hmem.1

theorem inEdges_map_fst (g : Graph) (d : String) :
    (g.inEdges d).map Prod.fst = g.preds d := by
  unfold Graph.inEdges Graph.preds
  rw [List.map_map]
  rfl

theorem outEdges_map_snd (g : Graph) (d : String) :
    (g.outEdges d).map Prod.snd = g.succs d := by
  unfold Graph.outEdges Graph.succs
  rw [List.map_map]
  rfl

theorem mem_inMigrated (g : Graph) (p d : String) (e : String × String)
    (he : e ∈ inMigrated g p d) :
    e ∈ g.inEdges d ∧ e.1 ≠ p ∧ g.hasEdge e.1 p = false := by
  have hmem := List.mem_filter.mp he
  have hcond := hmem.2
  simp only [Bool.and_eq_true, bne_iff_ne, Bool.not_eq_true'] at hcond
  exact ⟨hmem.1, hcond.1, hcond.2⟩

theorem mem_outMigrated (g : Graph) (p d : String) (e : String × String)
    (he : e ∈ outMigrated g p d) :
    e ∈ g.outEdges d ∧ e.2 ≠ p ∧ g.hasEdge p e.2 = false := by
  have hmem := List.mem_filter.mp he
  have hcond := hmem.2
  simp only [Bool.and_eq_true, bne_iff_ne, Bool.not_eq_true'] at hcond
  exact ⟨hmem.1, hcond.1, hcond.2⟩

theorem inAdds_shape (g : Graph) (p d : String) (hself : g.hasEdge d d = false)
    (e : String × String × Attrs) (he : e ∈ inAdds g p d) :
    e.2.1 = p ∧ e.1 ≠ p ∧ e.1 ≠ d := by
  rcases List.mem_map.mp he with ⟨e', he', rfl⟩
  obtain ⟨hin, hne, _⟩ := mem_inMigrated g p d e' he'
  obtain ⟨_, a, hmem⟩ := mem_inEdges g d e' hin
  refine ⟨rfl, hne, ?_⟩
  intro hcontra
  have h1 : e'.1 = d := hcontra
  rw [h1] at hmem
  have := hasEdge_of_mem g (d, d, a) hmem
  rw [hself] at this
  exact absurd this (by simp)

theorem outAdds_shape (g : Graph) (p d : String) (hself : g.hasEdge d d = false)
    (e : String × String × Attrs) (he : e ∈ outAdds g p d) :
    e.1 = p ∧ e.2.1 ≠ p ∧ e.2.1 ≠ d := by
  rcases List.mem_map.mp he with ⟨e', he', rfl⟩
  obtain ⟨hout, hne, _⟩ := mem_outMigrated g p d e' he'
  obtain ⟨_, a, hmem⟩ := mem_outEdges g d e' hout
  refine ⟨rfl, hne, ?_⟩
  intro hcontra
  have h1 : e'.2 = d := hcontra
  rw [h1] at hmem
  have := hasEdge_of_mem g (d, d, a) hmem
  rw [hself] at this
  exact absurd this (by simp)

/-- The graph produced by a successful `merge_duplicate_nodes`, stated
explicitly: the primary's attributes updated, the duplicate and its edges
removed, the migrated copies appended. -/
def mergeResultGraph (g : Graph) (p d : String) : Graph :=
  { nodes := (mergeNodes g p d).filter (fun q => q.1 != d),
    edges := (g.edges.filter (fun e => e.1 != d && e.2.1 != d))
      ++ inAdds g p d ++ outAdds g p d }

theorem merge_characterization (g : Graph) (p d : String) (hWF : g.wellFormed)
    (hp : g.hasNode p = true) (hd : g.hasNode d = true) (hpd : p ≠ d)
    (hself : g.hasEdge d d = false) :
    merge_duplicate_nodes g p d =
      (.ok { primary_node := p, merged_node := d,
             edges_transferred :=
               (inMigrated g p d).length + (outMigrated g p d).length,
             merged_attributes := dkeys (g.nodeAttrs d),
             message := "Successfully merged '" ++ d ++ "' into '" ++ p ++
               "' and transferred " ++
               toString ((inMigrated g p d).length + (outMigrated g p d).length) ++
               " relationships" },
       mergeResultGraph g p d) := by
  have hg1nodes : ∀ n, ({ g with nodes := mergeNodes g p d } : Graph).hasNode n =
      g.hasNode n := by
    intro n
    unfold Graph.hasNode
    exact mergeNodes_any_id g p d n
  have hs1 := mergeIn_fold g p d hpd (g.inEdges d)
    { g with nodes := mergeNodes g p d } 0
    (fun e he => (mem_inEdges g d e he).1)
    (by rw [show (g.inEdges d).map Prod.fst = g.preds d from inEdges_map_fst g d]
        exact preds_nodup g hWF d)
    (fun e _ => rfl)
    (fun e _ => rfl)
    (by rw [hg1nodes p]; exact hp)
    (fun e he => by
      obtain ⟨_, a, hmem⟩ := mem_inEdges g d e he
      rw [hg1nodes e.1]
      exact (hWF.2.2.1 (e.1, d, a) hmem).1)
  have hout : ({ g with edges := g.edges ++ inAdds g p d } : Graph).outEdges d =
      g.outEdges d :=
    outEdges_append_no_src g (inAdds g p d) d
      (fun e he => (inAdds_shape g p d hself e he).2.2)
  have hs2 := mergeOut_fold g p d hpd (g.outEdges d)
    { g with nodes := mergeNodes g p d, edges := g.edges ++ inAdds g p d }
    ((inMigrated g p d).length)
    (fun e he => (mem_outEdges g d e he).1)
    (by rw [show (g.outEdges d).map Prod.snd = g.succs d from outEdges_map_snd g d]
        exact succs_nodup g hWF d)
    (fun e he =>
      show ({ g with edges := g.edges ++ inAdds g p d } : Graph).edgeAttrs d e.2 =
          g.edgeAttrs d e.2 from
        edgeAttrs_append_no_match g (inAdds g p d) d e.2
          (fun e' he' hc => (inAdds_shape g p d hself e' he').2.2 hc.1))
    (fun e he =>
      show ({ g with edges := g.edges ++ inAdds g p d } : Graph).hasEdge p e.2 =
          g.hasEdge p e.2 from
        hasEdge_append_no_match g (inAdds g p d) p e.2
          (fun e' he' hc => (inAdds_shape g p d hself e' he').2.1 hc.1))
    (show ({ g with nodes := mergeNodes g p d } : Graph).hasNode p = true by
      rw [hg1nodes p]; exact hp)
    (fun e he => by
      obtain ⟨_, a, hmem⟩ := mem_outEdges g d e he
      show ({ g with nodes := mergeNodes g p d } : Graph).hasNode e.2 = true
      rw [hg1nodes e.2]
      exact (hWF.2.2.1 (d, e.2, a) hmem).2)
  have hfilter : ((g.edges ++ inAdds g p d ++ outAdds g p d).filter
      (fun e => e.1 != d && e.2.1 != d)) =
      (g.edges.filter (fun e => e.1 != d && e.2.1 != d))
        ++ inAdds g p d ++ outAdds g p d := by
    rw [List.filter_append, List.filter_append]
    congr 1
    · congr 1
      refine List.filter_eq_self.mpr ?_
      intro e he
      obtain ⟨h1, _, h3⟩ := inAdds_shape g p d hself e he
      simp [h3, h1, hpd]
    · refine List.filter_eq_self.mpr ?_
      intro e he
      obtain ⟨h1, _, h3⟩ := outAdds_shape g p d hself e he
      simp [h1, h3, hpd]
  unfold merge_duplicate_nodes
  rw [hp, hd, beq_eq_false_iff_ne.mpr hpd]
  simp only [Bool.not_true, Bool.false_eq_true, if_false]
  rw [show ({ g with nodes := mergeNodes g p d } : Graph).inEdges d =
    g.inEdges d from rfl]
  rw [hs1]
  dsimp only
  rw [show (List.map (fun e => (e.1, p, g.edgeAttrs e.1 d))
      (List.filter (fun e => e.1 != p && !g.hasEdge e.1 p) (g.inEdges d))) =
    inAdds g p d from rfl]
  rw [show (0 + (List.filter (fun e => e.1 != p && !g.hasEdge e.1 p)
      (g.inEdges d)).length) = (inMigrated g p d).length from Nat.zero_add _]
  rw [show ({ nodes := mergeNodes g p d, edges := g.edges ++ inAdds g p d } :
      Graph).outEdges d = g.outEdges d from hout]
  rw [hs2]
  dsimp only
  rw [show (List.map (fun e => (p, e.2, g.edgeAttrs d e.2))
      (List.filter (fun e => e.2 != p && !g.hasEdge p e.2) (g.outEdges d))) =
    outAdds g p d from rfl]
  rw [show (List.filter (fun e => e.2 != p && !g.hasEdge p e.2)
      (g.outEdges d)).length = (outMigrated g p d).length from rfl]
  unfold Graph.removeNode mergeResultGraph
  dsimp only
  rw [hfilter]


/-! ### Dictionary-level facts about the attribute reconciliation -/

theorem dhas_iff_mem (d : Attrs) (k : String) :
    dhas d k = true ↔ k ∈ dkeys d := by
  induction d with
  | nil => simp [dhas, dkeys]
  | cons p t ih =>
    rcases p with ⟨k1, v1⟩
    by_cases h : k1 = k
    · simp [dhas, dkeys, h]
    · have h1 : dhas ((k1, v1) :: t) k = dhas t k := by simp [dhas, h]
      rw [h1, ih]
      show k ∈ dkeys t ↔ k ∈ k1 :: dkeys t
      simp only [List.mem_cons]
      constructor
      · exact fun hm => Or.inr hm
      · rintro (hc | hm)
        · exact absurd hc.symm h
        · exact hm

theorem dget_fill_untouched (t : Attrs) (k : String) :
    ∀ acc : Attrs, (∀ kv ∈ t, kv.1 ≠ k) →
    dget (t.foldl (fun acc kv =>
        if !dhas acc kv.1 || dget acc kv.1 == some Value.null then
          dset acc kv.1 kv.2
        else acc) acc) k = dget acc k := by
  induction t with
  | nil => intro acc _; rfl
  | cons kv tl ih =>
    intro acc h
    rw [List.foldl_cons]
    have hk : kv.1 ≠ k := h kv (by simp)
    have htl : ∀ kv' ∈ tl, kv'.1 ≠ k := fun kv' h' =>
      h kv' (List.mem_cons_of_mem _ h')
    rw [ih _ htl]
    by_cases hc : (!dhas acc kv.1 || (dget acc kv.1 == some Value.null)) = true
    · rw [if_pos hc, dget_dset_ne _ _ _ _ (Ne.symm hk)]
    · rw [if_neg hc]

theorem dget_fill_preserves (t : Attrs) (k : String) (v : Value)
    (hv : v ≠ Value.null) :
    ∀ acc : Attrs, dget acc k = some v →
    dget (t.foldl (fun acc kv =>
        if !dhas acc kv.1 || dget acc kv.1 == some Value.null then
          dset acc kv.1 kv.2
        else acc) acc) k = some v := by
  induction t with
  | nil => intro acc h; exact h
  | cons kv tl ih =>
    intro acc h
    rw [List.foldl_cons]
    apply ih
    by_cases hk : kv.1 = k
    · have h1 : dhas acc kv.1 = true := by
        rw [dhas_iff_dget_isSome, hk, h]; rfl
      have h2 : (dget acc kv.1 == some Value.null) = false := by
        rw [hk, h]
        exact beq_eq_false_iff_ne.mpr (fun hc => hv (Option.some.inj hc))
      have hcond : (!dhas acc kv.1 || (dget acc kv.1 == some Value.null)) = false := by
        rw [h1, h2]; rfl
      rw [if_neg (by rw [hcond]; simp)]
      exact h
    · by_cases hc : (!dhas acc kv.1 || (dget acc kv.1 == some Value.null)) = true
      · rw [if_pos hc, dget_dset_ne _ _ _ _ (Ne.symm hk)]
        exact h
      · rw [if_neg hc]
        exact h

theorem dget_fill_copies (t : Attrs) (k : String) (v : Value) :
    (dkeys t).Nodup → dget t k = some v →
    ∀ acc : Attrs, (dget acc k = none ∨ dget acc k = some Value.null) →
    dget (t.foldl (fun acc kv =>
        if !dhas acc kv.1 || dget acc kv.1 == some Value.null then
          dset acc kv.1 kv.2
        else acc) acc) k = some v := by
  induction t with
  | nil => intro _ hl; exact absurd hl (by simp [dget_nil])
  | cons kv tl ih =>
    intro hnd hl acc hacc
    rcases kv with ⟨k1, v1⟩
    have hnd' : (k1 :: dkeys tl).Nodup := by simpa [dkeys] using hnd
    rw [List.foldl_cons]
    rw [dget_cons] at hl
    by_cases hk : k1 = k
    · rw [if_pos (beq_iff_eq.mpr hk)] at hl
      have hv1 : v1 = v := Option.some.inj hl
      have hcond : (!dhas acc k1 || (dget acc k1 == some Value.null)) = true := by
        rcases hacc with hA | hA
        · rw [hk, dhas_iff_dget_isSome, hA]
          rfl
        · rw [hk, hA]
          simp
      have hknot : ∀ kv' ∈ tl, kv'.1 ≠ k := by
        intro kv' h' hceq
        apply (List.nodup_cons.mp hnd').1
        rw [← hk] at hceq
        rw [← hceq]
        exact List.mem_map_of_mem Prod.fst h'
      rw [dget_fill_untouched tl k _ hknot]
      rw [if_pos hcond, hk, dget_dset_self, hv1]
    · rw [if_neg (by simpa using hk)] at hl
      apply ih (List.nodup_cons.mp hnd').2 hl
      by_cases hc : (!dhas acc k1 || (dget acc k1 == some Value.null)) = true
      · rw [if_pos hc, dget_dset_ne _ _ _ _ (Ne.symm hk)]
        exact hacc
      · rw [if_neg hc]
        exact hacc

theorem dkeys_dset (d : Attrs) (k : String) (v : Value) :
    dkeys (dset d k v) = if dhas d k then dkeys d else dkeys d ++ [k] := by
  induction d with
  | nil => rfl
  | cons p t ih =>
    rcases p with ⟨k1, v1⟩
    by_cases h : k1 = k
    · simp [dset, dhas, dkeys, h]
    · have h1 : dset ((k1, v1) :: t) k v = (k1, v1) :: dset t k v := by
        simp [dset, h]
      have h2 : dhas ((k1, v1) :: t) k = dhas t k := by
        simp [dhas, h]
      rw [h1, h2]
      cases hht : dhas t k
      · rw [hht] at ih
        rw [if_neg (by simp)]
        show k1 :: dkeys (dset t k v) = (k1 :: dkeys t) ++ [k]
        rw [ih, if_neg (by simp)]
        rfl
      · rw [hht] at ih
        rw [if_pos rfl]
        show k1 :: dkeys (dset t k v) = k1 :: dkeys t
        rw [ih, if_pos rfl]

theorem dkeys_dset_nodup (d : Attrs) (k : String) (v : Value)
    (h : (dkeys d).Nodup) : (dkeys (dset d k v)).Nodup := by
  rw [dkeys_dset]
  by_cases hh : dhas d k = true
  · rw [if_pos hh]; exact h
  · rw [if_neg hh]
    have hk : k ∉ dkeys d := fun hmem => hh ((dhas_iff_mem d k).mpr hmem)
    simp [List.nodup_append, h, hk]

theorem dkeys_fill_nodup (t : Attrs) :
    ∀ acc : Attrs, (dkeys acc).Nodup →
    (dkeys (t.foldl (fun acc kv =>
        if !dhas acc kv.1 || dget acc kv.1 == some Value.null then
          dset acc kv.1 kv.2
        else acc) acc)).Nodup := by
  induction t with
  | nil => intro acc h; exact h
  | cons kv tl ih =>
    intro acc h
    rw [List.foldl_cons]
    apply ih
    by_cases hc : (!dhas acc kv.1 || (dget acc kv.1 == some Value.null)) = true
    · rw [if_pos hc]
      exact dkeys_dset_nodup _ _ _ h
    · rw [if_neg hc]
      exact h

theorem dmerge_fold_untouched (t : Attrs) (k : String) :
    ∀ acc : Attrs, (∀ kv ∈ t, kv.1 ≠ k) →
    dget (t.foldl (fun acc p => dset acc p.1 p.2) acc) k = dget acc k := by
  induction t with
  | nil => intro acc _; rfl
  | cons kv tl ih =>
    intro acc h
    rw [List.foldl_cons]
    have hk : kv.1 ≠ k := h kv (by simp)
    have htl : ∀ kv' ∈ tl, kv'.1 ≠ k := fun kv' h' =>
      h kv' (List.mem_cons_of_mem _ h')
    rw [ih _ htl, dget_dset_ne _ _ _ _ (Ne.symm hk)]

theorem dget_dmerge_present (d2 : Attrs) (k : String) (v : Value) :
    (dkeys d2).Nodup → dget d2 k = some v →
    ∀ d : Attrs, dget (dmerge d d2) k = some v := by
  induction d2 with
  | nil => intro _ hl; exact absurd hl (by simp [dget_nil])
  | cons kv tl ih =>
    intro hnd hl d
    rcases kv with ⟨k1, v1⟩
    have hnd' : (k1 :: dkeys tl).Nodup := by simpa [dkeys] using hnd
    unfold dmerge
    rw [List.foldl_cons]
    rw [dget_cons] at hl
    by_cases hk : k1 = k
    · rw [if_pos (beq_iff_eq.mpr hk)] at hl
      have hknot : ∀ kv' ∈ tl, kv'.1 ≠ k := by
        intro kv' h' hceq
        apply (List.nodup_cons.mp hnd').1
        rw [← hk] at hceq
        rw [← hceq]
        exact List.mem_map_of_mem Prod.fst h'
      rw [dmerge_fold_untouched tl k _ hknot, hk, dget_dset_self,
        Option.some.inj hl]
    · rw [if_neg (by simpa using hk)] at hl
      exact ih (List.nodup_cons.mp hnd').2 hl _


/-! ### The merged graph, node side -/

theorem find?_map_eq {α β : Type} (f : α → β) (l : List α) (q : β → Bool) :
    (l.map f).find? q = (l.find? (fun a => q (f a))).map f := by
  induction l with
  | nil => rfl
  | cons a t ih =>
    rw [List.map_cons, List.find?_cons, List.find?_cons]
    cases hq : q (f a)
    · simp only [hq]
      exact ih
    · simp only [hq]
      rfl

theorem nodeAttrs_keys_nodup (g : Graph) (hWF : g.wellFormed) (n : String) :
    (dkeys (g.nodeAttrs n)).Nodup := by
  unfold Graph.nodeAttrs
  rcases hfind : g.nodes.find? (fun q => q.1 == n) with _ | e
  · rw [hfind]
    simp [dkeys]
  · rw [hfind]
    have hmem := List.mem_of_find?_eq_some hfind
    have hkeys := hWF.2.2.2.1 e hmem
    simpa using hkeys

theorem mergeResult_hasNode_dup (g : Graph) (p d : String) :
    (mergeResultGraph g p d).hasNode d = false := by
  unfold mergeResultGraph Graph.hasNode
  dsimp only
  rw [List.any_eq_false]
  intro q hq
  have := List.of_mem_filter hq
  simpa using this

theorem mergeResult_nodeAttrs_primary (g : Graph) (p d : String) (hpd : p ≠ d)
    (hp : g.hasNode p = true) :
    (mergeResultGraph g p d).nodeAttrs p =
      dmerge (g.nodeAttrs p) (mergedData g p d) := by
  obtain ⟨e, hfind⟩ : ∃ e, g.nodes.find? (fun q => q.1 == p) = some e := by
    apply Option.isSome_iff_exists.mp
    rw [List.find?_isSome]
    obtain ⟨q, hq, hq2⟩ := List.any_eq_true.mp hp
    exact ⟨q, hq, hq2⟩
  have hep : e.1 = p := by
    have := List.find?_some hfind
    simpa using this
  have hattrs : g.nodeAttrs p = e.2 := by
    unfold Graph.nodeAttrs
    rw [hfind]
    rfl
  unfold mergeResultGraph Graph.nodeAttrs
  dsimp only
  rw [find?_filter_keep _ _ _ (fun a ha => by
    have ha' : a.1 = p := by simpa using ha
    simp [ha', hpd])]
  unfold mergeNodes
  rw [find?_map_eq]
  have hpred : (fun a : String × Attrs =>
      (fun q : String × Attrs => q.1 == p)
        ((fun q : String × Attrs =>
          if q.1 == p then (p, dmerge q.2 (mergedData g p d)) else q) a)) =
      (fun q : String × Attrs => q.1 == p) := by
    funext q
    by_cases hq : q.1 = p
    · simp [hq]
    · simp [beq_eq_false_iff_ne.mpr hq, hq]
  rw [hpred, hfind]
  simp only [Option.map_some', Option.getD_some]
  rw [if_pos (beq_iff_eq.mpr hep)]

/-! ### The merged graph, edge side -/

theorem mergeResult_edge_keep (g : Graph) (p d x y : String)
    (hx : x ≠ d) (hy : y ≠ d) (hxy : g.hasEdge x y = true) :
    (mergeResultGraph g p d).hasEdge x y = true ∧
    (mergeResultGraph g p d).edgeAttrs x y = g.edgeAttrs x y := by
  obtain ⟨e, hfind⟩ : ∃ e, g.edges.find? (fun e => e.1 == x && e.2.1 == y) = some e := by
    apply Option.isSome_iff_exists.mp
    rw [List.find?_isSome]
    obtain ⟨e, he, hpe⟩ := List.any_eq_true.mp hxy
    exact ⟨e, he, hpe⟩
  have hpe := List.find?_some hfind
  have hmem := List.mem_of_find?_eq_some hfind
  have hex : e.1 = x ∧ e.2.1 = y := by
    simpa using hpe
  have hmemF : e ∈ g.edges.filter (fun e => e.1 != d && e.2.1 != d) :=
    List.mem_filter.mpr ⟨hmem, by simp [hex.1, hex.2, hx, hy]⟩
  constructor
  · unfold mergeResultGraph Graph.hasEdge
    dsimp only
    apply List.any_eq_true.mpr
    exact ⟨e, List.mem_append.mpr (Or.inl (List.mem_append.mpr (Or.inl hmemF))), hpe⟩
  · unfold mergeResultGraph Graph.edgeAttrs
    dsimp only
    have hF : (g.edges.filter (fun e => e.1 != d && e.2.1 != d)).find?
        (fun e => e.1 == x && e.2.1 == y) = some e := by
      rw [find?_filter_keep _ _ _ (fun a ha => by
        simp only [Bool.and_eq_true, beq_iff_eq] at ha
        simp [ha.1, ha.2, hx, hy])]
      exact hfind
    rw [find?_append_some _ _ _ _ (find?_append_some _ _ _ _ hF), hfind]

theorem find?_in_adds (g : Graph) (p d x : String) (l : List (String × String))
    (hl : ∀ e ∈ l, e.2 = d) (hx : (x, d) ∈ l) :
    (l.map (fun e => (e.1, p, g.edgeAttrs e.1 d))).find?
      (fun e => e.1 == x && e.2.1 == p) = some (x, p, g.edgeAttrs x d) := by
  induction l with
  | nil => simp at hx
  | cons e tl ih =>
    rw [List.map_cons, List.find?_cons]
    dsimp only
    simp only [beq_self_eq_true, Bool.and_true]
    cases hex : e.1 == x
    · simp only [hex]
      apply ih (fun e' he' => hl e' (List.mem_cons_of_mem _ he'))
      rcases List.mem_cons.mp hx with heq | hmem
      · exfalso
        rw [← heq] at hex
        simp at hex
      · exact hmem
    · simp only [hex]
      have hex' : e.1 = x := beq_iff_eq.mp hex
      rw [hex']

theorem find?_out_adds (g : Graph) (p d y : String) (l : List (String × String))
    (hl : ∀ e ∈ l, e.1 = d) (hy : (d, y) ∈ l) :
    (l.map (fun e => (p, e.2, g.edgeAttrs d e.2))).find?
      (fun e => e.1 == p && e.2.1 == y) = some (p, y, g.edgeAttrs d y) := by
  induction l with
  | nil => simp at hy
  | cons e tl ih =>
    rw [List.map_cons, List.find?_cons]
    dsimp only
    simp only [beq_self_eq_true, Bool.true_and]
    cases hey : e.2 == y
    · simp only [hey]
      apply ih (fun e' he' => hl e' (List.mem_cons_of_mem _ he'))
      rcases List.mem_cons.mp hy with heq | hmem
      · exfalso
        rw [← heq] at hey
        simp at hey
      · exact hmem
    · simp only [hey]
      have hey' : e.2 = y := beq_iff_eq.mp hey
      rw [hey']

theorem mergeResult_in_edge (g : Graph) (p d x : String)
    (hxp : x ≠ p) (hxd : g.hasEdge x d = true) (hnew : g.hasEdge x p = false) :
    (mergeResultGraph g p d).hasEdge x p = true ∧
    (mergeResultGraph g p d).edgeAttrs x p = g.edgeAttrs x d := by
  obtain ⟨a, hmem⟩ := mem_of_hasEdge g x d hxd
  have hInE : (x, d) ∈ g.inEdges d := by
    unfold Graph.inEdges
    exact List.mem_map.mpr ⟨(x, d, a), List.mem_filter.mpr ⟨hmem, by simp⟩, rfl⟩
  have hInM : (x, d) ∈ inMigrated g p d :=
    List.mem_filter.mpr ⟨hInE, by simp [hxp, hnew]⟩
  have htarget : (x, p, g.edgeAttrs x d) ∈ inAdds g p d :=
    List.mem_map.mpr ⟨(x, d), hInM, rfl⟩
  have hIn : (inAdds g p d).find? (fun e => e.1 == x && e.2.1 == p) =
      some (x, p, g.edgeAttrs x d) :=
    find?_in_adds g p d x (inMigrated g p d)
      (fun e he => (mem_inEdges g d e (mem_inMigrated g p d e he).1).1) hInM
  constructor
  · unfold mergeResultGraph Graph.hasEdge
    dsimp only
    apply List.any_eq_true.mpr
    refine ⟨(x, p, g.edgeAttrs x d), ?_, by simp⟩
    exact List.mem_append.mpr (Or.inl (List.mem_append.mpr (Or.inr htarget)))
  · unfold mergeResultGraph Graph.edgeAttrs
    dsimp only
    have hF : (g.edges.filter (fun e => e.1 != d && e.2.1 != d)).find?
        (fun e => e.1 == x && e.2.1 == p) = none := by
      rw [List.find?_eq_none]
      intro e he hpe
      have hmem' := List.mem_of_mem_filter he
      simp only [Bool.and_eq_true, beq_iff_eq] at hpe
      have h1 := hasEdge_of_mem g e hmem'
      rw [hpe.1, hpe.2, hnew] at h1
      exact absurd h1 (by simp)
    rw [find?_append_some _ _ _ _ ((find?_append_none _ _ _ hF).trans hIn)]
    rfl

theorem mergeResult_out_edge (g : Graph) (p d y : String)
    (hself : g.hasEdge d d = false)
    (hyp : y ≠ p) (hdy : g.hasEdge d y = true) (hnew : g.hasEdge p y = false) :
    (mergeResultGraph g p d).hasEdge p y = true ∧
    (mergeResultGraph g p d).edgeAttrs p y = g.edgeAttrs d y := by
  obtain ⟨a, hmem⟩ := mem_of_hasEdge g d y hdy
  have hOutE : (d, y) ∈ g.outEdges d := by
    unfold Graph.outEdges
    exact List.mem_map.mpr ⟨(d, y, a), List.mem_filter.mpr ⟨hmem, by simp⟩, rfl⟩
  have hOutM : (d, y) ∈ outMigrated g p d :=
    List.mem_filter.mpr ⟨hOutE, by simp [hyp, hnew]⟩
  have htarget : (p, y, g.edgeAttrs d y) ∈ outAdds g p d :=
    List.mem_map.mpr ⟨(d, y), hOutM, rfl⟩
  have hOut : (outAdds g p d).find? (fun e => e.1 == p && e.2.1 == y) =
      some (p, y, g.edgeAttrs d y) :=
    find?_out_adds g p d y (outMigrated g p d)
      (fun e he => (mem_outEdges g d e (mem_outMigrated g p d e he).1).1) hOutM
  constructor
  · unfold mergeResultGraph Graph.hasEdge
    dsimp only
    apply List.any_eq_true.mpr
    refine ⟨(p, y, g.edgeAttrs d y), ?_, by simp⟩
    exact List.mem_append.mpr (Or.inr htarget)
  · unfold mergeResultGraph Graph.edgeAttrs
    dsimp only
    have hF : (g.edges.filter (fun e => e.1 != d && e.2.1 != d)).find?
        (fun e => e.1 == p && e.2.1 == y) = none := by
      rw [List.find?_eq_none]
      intro e he hpe
      have hmem' := List.mem_of_mem_filter he
      simp only [Bool.and_eq_true, beq_iff_eq] at hpe
      have h1 := hasEdge_of_mem g e hmem'
      rw [hpe.1, hpe.2, hnew] at h1
      exact absurd h1 (by simp)
    have hInNone : (inAdds g p d).find? (fun e => e.1 == p && e.2.1 == y) = none := by
      rw [List.find?_eq_none]
      intro e he hpe
      simp only [Bool.and_eq_true, beq_iff_eq] at hpe
      exact (inAdds_shape g p d hself e he).2.1 hpe.1
    rw [find?_append_none _ _ _ ((find?_append_none _ _ _ hF).trans hInNone), hOut]
    rfl

theorem mergeResult_self_loop_primary (g : Graph) (p d : String)
    (hself : g.hasEdge d d = false) (hpd : p ≠ d) :
    (mergeResultGraph g p d).hasEdge p p = g.hasEdge p p := by
  cases hpp : g.hasEdge p p
  · unfold mergeResultGraph Graph.hasEdge
    dsimp only
    rw [List.any_append, List.any_append]
    have hF : (g.edges.filter (fun e => e.1 != d && e.2.1 != d)).any
        (fun e => e.1 == p && e.2.1 == p) = false := by
      rw [List.any_eq_false]
      intro e he hpe
      have hmem := List.mem_of_mem_filter he
      simp only [Bool.and_eq_true, beq_iff_eq] at hpe
      have h1 := hasEdge_of_mem g e hmem
      rw [hpe.1, hpe.2, hpp] at h1
      exact absurd h1 (by simp)
    have hIn : (inAdds g p d).any (fun e => e.1 == p && e.2.1 == p) = false := by
      rw [List.any_eq_false]
      intro e he hpe
      simp only [Bool.and_eq_true, beq_iff_eq] at hpe
      exact (inAdds_shape g p d hself e he).2.1 hpe.1
    have hOut : (outAdds g p d).any (fun e => e.1 == p && e.2.1 == p) = false := by
      rw [List.any_eq_false]
      intro e he hpe
      simp only [Bool.and_eq_true, beq_iff_eq] at hpe
      exact (outAdds_shape g p d hself e he).2.1 hpe.2
    rw [hF, hIn, hOut]
    rfl
  · exact (mergeResult_edge_keep g p d p p hpd hpd hpp).1


/-! ## C2 — semantics of `merge_duplicate_nodes`

Claim: merging `duplicate` into `primary` removes the duplicate, copies
each duplicate property that is absent or null on the primary (primary's
non-null values win), migrates every in-edge `(x, duplicate)` with
`x != primary` and every out-edge `(duplicate, y)` with `y != primary`
with first-writer-wins attributes, and recreates no self-loop.  This holds
provided the duplicate carries no self-loop; a self-loop `(d, d)` defeats
the edge-migration promise, so the claim as stated is refuted below. -/

/-- Counterexample graph for C2: the duplicate has a self-loop. -/
def exGraphC2 : Graph :=
  { nodes := [("P", [("node_type", Value.str "patient")]),
              ("D", [("node_type", Value.str "patient")])],
    edges := [("D", "D", [("relationship_type", Value.str "SELF")])] }

/-- C2 (counterexample): `(D, D)` is an edge into the duplicate whose
source differs from the primary, so the claim promises an edge `(D, P)`
after the merge; but the duplicate and every edge touching it are removed,
so no such edge exists. -/
theorem merge_selfloop_edge_dropped :
    exGraphC2.hasEdge "D" "D" = true ∧ ("D" : String) ≠ "P" ∧
    (merge_duplicate_nodes exGraphC2 "P" "D").2.hasEdge "D" "P" = false := by
  decide

/-- C2: on a well-formed graph in which primary and duplicate both exist
and differ and the duplicate has no self-loop, `merge_duplicate_nodes`
returns the explicitly described graph in which the duplicate is absent,
every duplicate property absent or null on the primary is copied onto it,
the primary's non-null values are unchanged, every in-edge
`(x, duplicate)` with `x ≠ primary` yields `(x, primary)` with
first-writer-wins attributes, symmetrically for out-edges, and no
primary self-loop is created. -/
theorem merge_duplicate_semantics (g : Graph) (p d : String)
    (hWF : g.wellFormed) (hp : g.hasNode p = true) (hd : g.hasNode d = true)
    (hpd : p ≠ d) (hself : g.hasEdge d d = false) :
    ∃ res, merge_duplicate_nodes g p d = (MergeOut.ok res, mergeResultGraph g p d) ∧
      (mergeResultGraph g p d).hasNode d = false ∧
      (∀ k v, dget (g.nodeAttrs d) k = some v →
        (dget (g.nodeAttrs p) k = none ∨ dget (g.nodeAttrs p) k = some Value.null) →
        dget ((mergeResultGraph g p d).nodeAttrs p) k = some v) ∧
      (∀ k v, dget (g.nodeAttrs p) k = some v → v ≠ Value.null →
        dget ((mergeResultGraph g p d).nodeAttrs p) k = some v) ∧
      (∀ x, x ≠ p → g.hasEdge x d = true →
        (mergeResultGraph g p d).hasEdge x p = true ∧
        (mergeResultGraph g p d).edgeAttrs x p =
          (if g.hasEdge x p = true then g.edgeAttrs x p else g.edgeAttrs x d)) ∧
      (∀ y, y ≠ p → g.hasEdge d y = true →
        (mergeResultGraph g p d).hasEdge p y = true ∧
        (mergeResultGraph g p d).edgeAttrs p y =
          (if g.hasEdge p y = true then g.edgeAttrs p y else g.edgeAttrs d y)) ∧
      (mergeResultGraph g p d).hasEdge p p = g.hasEdge p p := by
  have hnodupD := nodeAttrs_keys_nodup g hWF d
  have hnodupP := nodeAttrs_keys_nodup g hWF p
  have hattrsEq := mergeResult_nodeAttrs_primary g p d hpd hp
  refine ⟨_, merge_characterization g p d hWF hp hd hpd hself,
    mergeResult_hasNode_dup g p d, ?_, ?_, ?_, ?_,
    mergeResult_self_loop_primary g p d hself hpd⟩
  · intro k v hdup hgap
    rw [hattrsEq]
    exact dget_dmerge_present (mergedData g p d) k v
      (dkeys_fill_nodup (g.nodeAttrs d) (g.nodeAttrs p) hnodupP)
      (dget_fill_copies (g.nodeAttrs d) k v hnodupD hdup (g.nodeAttrs p) hgap)
      (g.nodeAttrs p)
  · intro k v hbase hv
    rw [hattrsEq]
    exact dget_dmerge_present (mergedData g p d) k v
      (dkeys_fill_nodup (g.nodeAttrs d) (g.nodeAttrs p) hnodupP)
      (dget_fill_preserves (g.nodeAttrs d) k v hv (g.nodeAttrs p) hbase)
      (g.nodeAttrs p)
  · intro x hxp hxd
    have hxdne : x ≠ d := by
      intro hc
      rw [hc, hself] at hxd
      exact absurd hxd (by simp)
    cases hxpE : g.hasEdge x p
    · have h := mergeResult_in_edge g p d x hxp hxd hxpE
      refine ⟨h.1, ?_⟩
      rw [if_neg (by simp)]
      exact h.2
    · have h := mergeResult_edge_keep g p d x p hxdne hpd hxpE
      refine ⟨h.1, ?_⟩
      rw [if_pos rfl]
      exact h.2
  · intro y hyp hdy
    have hydne : y ≠ d := by
      intro hc
      rw [hc, hself] at hdy
      exact absurd hdy (by simp)
    cases hpyE : g.hasEdge p y
    · have h := mergeResult_out_edge g p d y hself hyp hdy hpyE
      refine ⟨h.1, ?_⟩
      rw [if_neg (by simp)]
      exact h.2
    · have h := mergeResult_edge_keep g p d p y hpd hydne hpyE
      refine ⟨h.1, ?_⟩
      rw [if_pos rfl]
      exact h.2

/-- Witness graph for C2: primary with a null `label`, a duplicate with
attributes to copy, one in-edge and one out-edge at the duplicate. -/
def wGraphC2 : Graph :=
  { nodes := [("P", [("node_type", Value.str "patient"), ("label", Value.null)]),
              ("D", [("node_type", Value.str "patient"), ("label", Value.str "Dup")]),
              ("X", [("node_type", Value.str "condition"), ("label", Value.str "X")]),
              ("Y", [("node_type", Value.str "research_article"), ("label", Value.str "Y")])],
    edges := [("X", "D", [("relationship_type", Value.str "LINKS")]),
              ("D", "Y", [("relationship_type", Value.str "CITES")])] }

theorem merge_duplicate_semantics_witness :
    wGraphC2.wellFormed ∧ wGraphC2.hasNode "P" = true ∧
    wGraphC2.hasNode "D" = true ∧ ("P" : String) ≠ "D" ∧
    wGraphC2.hasEdge "D" "D" = false ∧
    (∃ res, merge_duplicate_nodes wGraphC2 "P" "D" =
        (MergeOut.ok res, mergeResultGraph wGraphC2 "P" "D") ∧
      (mergeResultGraph wGraphC2 "P" "D").hasNode "D" = false ∧
      (∀ k v, dget (wGraphC2.nodeAttrs "D") k = some v →
        (dget (wGraphC2.nodeAttrs "P") k = none ∨
          dget (wGraphC2.nodeAttrs "P") k = some Value.null) →
        dget ((mergeResultGraph wGraphC2 "P" "D").nodeAttrs "P") k = some v) ∧
      (∀ k v, dget (wGraphC2.nodeAttrs "P") k = some v → v ≠ Value.null →
        dget ((mergeResultGraph wGraphC2 "P" "D").nodeAttrs "P") k = some v) ∧
      (∀ x, x ≠ "P" → wGraphC2.hasEdge x "D" = true →
        (mergeResultGraph wGraphC2 "P" "D").hasEdge x "P" = true ∧
        (mergeResultGraph wGraphC2 "P" "D").edgeAttrs x "P" =
          (if wGraphC2.hasEdge x "P" = true then wGraphC2.edgeAttrs x "P"
           else wGraphC2.edgeAttrs x "D")) ∧
      (∀ y, y ≠ "P" → wGraphC2.hasEdge "D" y = true →
        (mergeResultGraph wGraphC2 "P" "D").hasEdge "P" y = true ∧
        (mergeResultGraph wGraphC2 "P" "D").edgeAttrs "P" y =
          (if wGraphC2.hasEdge "P" y = true then wGraphC2.edgeAttrs "P" y
           else wGraphC2.edgeAttrs "D" y)) ∧
      (mergeResultGraph wGraphC2 "P" "D").hasEdge "P" "P" =
        wGraphC2.hasEdge "P" "P") :=
  ⟨by decide, by decide, by decide, by decide, by decide,
    merge_duplicate_semantics wGraphC2 "P" "D" (by decide) (by decide)
      (by decide) (by decide) (by decide)⟩

/-! ## C9 — counts reported by `merge_duplicate_nodes`

Claim: the success payload reports the number of transferred edges and
the attribute keys actually merged (those absent or null on the primary).
The count is right, but `merged_attributes` is `list(duplicate_data.keys())`
(line 1757): every key of the duplicate, merged or not. -/

/-- The `merged_attributes` field of a successful result. -/
def mergedAttrsOf : MergeOut → List String
  | .ok r => r.merged_attributes
  | .err _ => []

/-- Counterexample graph for C9: every duplicate key is present and
non-null on the primary, so nothing is actually copied. -/
def exGraphC9 : Graph :=
  { nodes := [("P", [("node_type", Value.str "patient"), ("label", Value.str "Patient")]),
              ("D", [("node_type", Value.str "patient"), ("label", Value.str "Duplicate")])],
    edges := [] }

/-- C9 (counterexample): `"label"` is present and non-null on the primary,
so it is never copied, yet the result reports it among
`merged_attributes`. -/
theorem merge_reports_uncopied_key :
    dget (exGraphC9.nodeAttrs "P") "label" = some (Value.str "Patient") ∧
    mergedAttrsOf (merge_duplicate_nodes exGraphC9 "P" "D").1 =
      ["node_type", "label"] := by
  decide

/-- C9: a successful merge reports `edges_transferred` as the number of
add-edge operations performed by the two migration loops (the in-edges,
then the out-edges, eligible for migration) and `merged_attributes` as
the complete key list of the duplicate's attribute dict. -/
theorem merge_reported_counts (g : Graph) (p d : String) (hWF : g.wellFormed)
    (hp : g.hasNode p = true) (hd : g.hasNode d = true) (hpd : p ≠ d)
    (hself : g.hasEdge d d = false) :
    ∃ g2, merge_duplicate_nodes g p d =
      (MergeOut.ok
        { primary_node := p, merged_node := d,
          edges_transferred :=
            (inMigrated g p d).length + (outMigrated g p d).length,
          merged_attributes := dkeys (g.nodeAttrs d),
          message := "Successfully merged '" ++ d ++ "' into '" ++ p ++
            "' and transferred " ++
            toString ((inMigrated g p d).length + (outMigrated g p d).length) ++
            " relationships" }, g2) :=
  ⟨mergeResultGraph g p d, merge_characterization g p d hWF hp hd hpd hself⟩

/-- Witness graph for C9. -/
def wGraphC9 : Graph :=
  { nodes := [("P", [("node_type", Value.str "patient"), ("label", Value.str "Primary")]),
              ("D", [("node_type", Value.str "patient"), ("label", Value.str "Dup")]),
              ("C", [("node_type", Value.str "condition"), ("label", Value.str "C")])],
    edges := [("C", "D", [("relationship_type", Value.str "HAS_CONDITION")])] }

theorem merge_reported_counts_witness :
    wGraphC9.wellFormed ∧ wGraphC9.hasNode "P" = true ∧
    wGraphC9.hasNode "D" = true ∧ ("P" : String) ≠ "D" ∧
    wGraphC9.hasEdge "D" "D" = false ∧
    (∃ g2, merge_duplicate_nodes wGraphC9 "P" "D" =
      (MergeOut.ok
        { primary_node := "P", merged_node := "D",
          edges_transferred :=
            (inMigrated wGraphC9 "P" "D").length +
              (outMigrated wGraphC9 "P" "D").length,
          merged_attributes := dkeys (wGraphC9.nodeAttrs "D"),
          message := "Successfully merged '" ++ "D" ++ "' into '" ++ "P" ++
            "' and transferred " ++
            toString ((inMigrated wGraphC9 "P" "D").length +
              (outMigrated wGraphC9 "P" "D").length) ++
            " relationships" }, g2)) :=
  ⟨by decide, by decide, by decide, by decide, by decide,
    merge_reported_counts wGraphC9 "P" "D" (by decide) (by decide) (by decide)
      (by decide) (by decide)⟩


/-! ## C8 — saturation of the breadth iteration and shortest paths

To relate `descendants` and `shortest_path_length` (both defined by fuelled
breadth saturation) to the specification-side path relation `kpath`, we
show the iteration is monotone, reaches a fixed point within the fuel
bound, and that the fuelled ball therefore holds every node with a
directed path of any length. -/

theorem subset_stepSet (nf : String → List String) (s : Finset String) :
    s ⊆ stepSet nf s := by
  intro a ha
  exact Finset.mem_union_left _ ha

theorem iterStep_mono_succ (nf : String → List String) (n : Nat)
    (s : Finset String) : iterStep nf n s ⊆ iterStep nf (n + 1) s := by
  intro a ha
  exact subset_stepSet nf (iterStep nf n s) ha

theorem iterStep_mono (nf : String → List String) (s : Finset String)
    {m n : Nat} (h : m ≤ n) : iterStep nf m s ⊆ iterStep nf n s := by
  induction h with
  | refl => exact fun a ha => ha
  | step _ ih => exact fun a ha => iterStep_mono_succ nf _ s (ih ha)

theorem iterStep_fix_from (nf : String → List String) (s : Finset String)
    (n : Nat) (hfix : iterStep nf (n + 1) s = iterStep nf n s) :
    ∀ m, n ≤ m → iterStep nf m s = iterStep nf n s := by
  intro m hm
  induction m, hm using Nat.le_induction with
  | base => rfl
  | succ m hm ih =>
    show stepSet nf (iterStep nf m s) = iterStep nf n s
    rw [ih]
    exact hfix

theorem iterStep_subset_targets (g : Graph) (x : String) (n : Nat) :
    iterStep g.succs n ({x} : Finset String) ⊆
      insert x (g.edges.toFinset.image (fun e => e.2.1)) := by
  induction n with
  | zero =>
    intro a ha
    have hax : a = x := Finset.mem_singleton.mp ha
    rw [hax]
    exact Finset.mem_insert_self x _
  | succ n ih =>
    show stepSet g.succs (iterStep g.succs n {x}) ⊆ _
    unfold stepSet
    apply Finset.union_subset ih
    intro y hy
    obtain ⟨w, _, hynf⟩ := Finset.mem_biUnion.mp hy
    have hmem : y ∈ g.succs w := List.mem_toFinset.mp hynf
    unfold Graph.succs at hmem
    rcases List.mem_map.mp hmem with ⟨e, he, heq⟩
    apply Finset.mem_insert_of_mem
    exact Finset.mem_image.mpr
      ⟨e, List.mem_toFinset.mpr (List.mem_of_mem_filter he), heq⟩

theorem iterStep_reaches_fix (g : Graph) (x : String) :
    ∃ n, n ≤ g.closureFuel ∧
      iterStep g.succs (n + 1) ({x} : Finset String) =
        iterStep g.succs n ({x} : Finset String) := by
  by_contra hc
  push_neg at hc
  have hgrow : ∀ m, m ≤ g.closureFuel + 1 →
      m ≤ (iterStep g.succs m ({x} : Finset String)).card := by
    intro m
    induction m with
    | zero => intro _; exact Nat.zero_le _
    | succ m ih =>
      intro hm
      have hm' : m ≤ g.closureFuel := by omega
      have hne := hc m hm'
      have hsub := iterStep_mono_succ g.succs m ({x} : Finset String)
      have hlt : (iterStep g.succs m ({x} : Finset String)).card <
          (iterStep g.succs (m + 1) ({x} : Finset String)).card :=
        Finset.card_lt_card (Finset.ssubset_iff_subset_ne.mpr ⟨hsub, Ne.symm hne⟩)
      have hih := ih (by omega)
      omega
  have h1 := hgrow (g.closureFuel + 1) (Nat.le_refl _)
  have hb1 : (iterStep g.succs (g.closureFuel + 1) ({x} : Finset String)).card ≤
      (insert x (g.edges.toFinset.image (fun e => e.2.1))).card :=
    Finset.card_le_card (iterStep_subset_targets g x _)
  have hb2 : (insert x (g.edges.toFinset.image (fun e => e.2.1))).card ≤
      (g.edges.toFinset.image (fun e => e.2.1)).card + 1 :=
    Finset.card_insert_le x _
  have hb3 : (g.edges.toFinset.image (fun e => e.2.1)).card ≤
      g.edges.toFinset.card :=
    Finset.card_image_le
  have hb4 : g.edges.toFinset.card ≤ g.edges.length :=
    g.edges.toFinset_card_le
  have hfuel : g.closureFuel = 2 * g.edges.length + 1 := rfl
  omega

theorem iterStep_le_closure (g : Graph) (x : String) (k : Nat) :
    iterStep g.succs k ({x} : Finset String) ⊆
      iterStep g.succs g.closureFuel ({x} : Finset String) := by
  obtain ⟨n, hn, hfix⟩ := iterStep_reaches_fix g x
  by_cases hk : k ≤ g.closureFuel
  · exact iterStep_mono g.succs _ hk
  · have h1 : iterStep g.succs k ({x} : Finset String) =
        iterStep g.succs n ({x} : Finset String) :=
      iterStep_fix_from g.succs _ n hfix k (by omega)
    rw [h1]
    exact iterStep_mono g.succs _ hn

theorem mem_descendants_iff (g : Graph) (x y : String) :
    y ∈ g.descendants x ↔ y ≠ x ∧ ∃ k, kpath g.succs k x y := by
  unfold Graph.descendants
  rw [Finset.mem_erase]
  constructor
  · rintro ⟨hne, hmem⟩
    obtain ⟨z, hz, k, _, hp⟩ := (mem_iterStep_iff _ _ _ y).mp hmem
    have hz' : z = x := Finset.mem_singleton.mp hz
    exact ⟨hne, k, hz' ▸ hp⟩
  · rintro ⟨hne, k, hp⟩
    refine ⟨hne, ?_⟩
    apply iterStep_le_closure g x k
    exact (mem_iterStep_iff _ _ _ y).mpr
      ⟨x, Finset.mem_singleton_self x, k, Nat.le_refl k, hp⟩

theorem spl_isSome_of_reachable (g : Graph) (x y : String) (k : Nat)
    (hp : kpath g.succs k x y) :
    (g.shortest_path_length x y).isSome := by
  unfold Graph.shortest_path_length
  rw [List.find?_isSome]
  refine ⟨g.closureFuel, List.mem_range.mpr (by omega), ?_⟩
  simp only [decide_eq_true_eq]
  exact iterStep_le_closure g x k
    ((mem_iterStep_iff _ _ _ y).mpr
      ⟨x, Finset.mem_singleton_self x, k, Nat.le_refl k, hp⟩)

theorem find?_split {α : Type} (l : List α) (p : α → Bool) (a : α)
    (h : l.find? p = some a) :
    ∃ l1 l2, l = l1 ++ a :: l2 ∧ ∀ b ∈ l1, p b = false := by
  induction l with
  | nil => simp at h
  | cons x t ih =>
    rw [List.find?_cons] at h
    cases hx : p x
    · simp only [hx] at h
      obtain ⟨l1, l2, heq, hall⟩ := ih h
      refine ⟨x :: l1, l2, by rw [heq]; rfl, ?_⟩
      intro b hb
      rcases List.mem_cons.mp hb with rfl | hb'
      · exact hx
      · exact hall b hb'
    · simp only [hx, Option.some.injEq] at h
      exact ⟨[], t, by rw [h]; rfl, by intro b hb; simp at hb⟩

theorem find?_range_least (N n : Nat) (p : Nat → Bool)
    (h : (List.range N).find? p = some n) :
    p n = true ∧ ∀ m, m < n → p m = false := by
  refine ⟨List.find?_some h, ?_⟩
  obtain ⟨l1, l2, heq, hall⟩ := find?_split _ _ _ h
  have hnN : n < N :=
    List.mem_range.mp (List.mem_of_find?_eq_some h)
  intro m hm
  have hmem : m ∈ List.range N := List.mem_range.mpr (by omega)
  rw [heq] at hmem
  rcases List.mem_append.mp hmem with h1 | h2
  · exact hall m h1
  · rcases List.mem_cons.mp h2 with rfl | h3
    · omega
    · have hpw : (l1 ++ n :: l2).Pairwise (· < ·) := by
        rw [← heq]
        exact List.pairwise_lt_range N
      have hlt : n < m :=
        (List.pairwise_cons.mp (List.pairwise_append.mp hpw).2.1).1 m h3
      omega

theorem spl_characterization (g : Graph) (x y : String) (dn : Nat)
    (h : g.shortest_path_length x y = some dn) :
    kpath g.succs dn x y ∧ ∀ m, m < dn → ¬ kpath g.succs m x y := by
  unfold Graph.shortest_path_length at h
  obtain ⟨hp, hmin⟩ := find?_range_least _ _ _ h
  have hmin' : ∀ m, m < dn → ¬ kpath g.succs m x y := by
    intro m hm hk
    have hmem : y ∈ iterStep g.succs m ({x} : Finset String) :=
      (mem_iterStep_iff _ _ _ y).mpr
        ⟨x, Finset.mem_singleton_self x, m, Nat.le_refl m, hk⟩
    have hfalse := hmin m hm
    rw [decide_eq_false_iff_not] at hfalse
    exact hfalse hmem
  refine ⟨?_, hmin'⟩
  have hy : y ∈ iterStep g.succs dn ({x} : Finset String) := by
    simpa using hp
  obtain ⟨z, hz, k, hk, hkp⟩ := (mem_iterStep_iff _ _ _ y).mp hy
  have hz' : z = x := Finset.mem_singleton.mp hz
  subst hz'
  rcases Nat.lt_or_ge k dn with hlt | hge
  · exact absurd hkp (hmin' k hlt)
  · have hkd : k = dn := Nat.le_antisymm hk hge
    rwa [hkd] at hkp


/-! ## C8 — `analyze_graph_connectivity` average research depth

Claim: `average_research_depth` equals the arithmetic mean of the shortest
directed path lengths from the patient to each reachable research-article
or clinical-trial node, unreachable ones excluded, `0` when none exist.
The mean is indeed taken over exactly the reachable research set with the
right exclusions, but the code reports `round(avg, 2)` (line 1168), so the
reported value is the mean rounded to two decimals, not the mean itself. -/

/-- The research set of the connectivity analysis: research articles and
clinical trials among `nx.descendants(graph, patient)`. -/
def researchReach (g : Graph) (p : String) : Finset String :=
  (g.descendants p).filter (fun n =>
    dget (g.nodeAttrs n) "node_type" = some (Value.str "research_article")) ∪
  (g.descendants p).filter (fun n =>
    dget (g.nodeAttrs n) "node_type" = some (Value.str "clinical_trial"))

/-- The `average_research_depth` field of a successful analysis. -/
def avgDepthOf : AnalyzeOut → ℚ
  | .ok r => r.average_research_depth
  | _ => 0

/-- The reported `average_research_depth`, in closed form: the fuelled
average over the research set, wrapped in `round(., 2)`. -/
theorem analyze_avg_eq (g : Graph) (p : String) (rest : List String)
    (hn : g.numNodes ≠ 0) (hpat : patientNodes g = p :: rest) :
    avgDepthOf (analyze_graph_connectivity g) =
      round2 (if (researchReach g p).card == 0 then 0
        else ((researchReach g p).sum
            (fun n => (g.shortest_path_length p n).getD 0) : ℚ) /
          ((researchReach g p).card : ℚ)) := by
  have hbeq : (g.numNodes == 0) = false := beq_eq_false_iff_ne.mpr hn
  have hsome : ∀ n ∈ researchReach g p, (g.shortest_path_length p n).isSome := by
    intro n hn'
    unfold researchReach at hn'
    rcases Finset.mem_union.mp hn' with h | h
    · obtain ⟨hne, k, hk⟩ :=
        (mem_descendants_iff g p n).mp (Finset.mem_filter.mp h).1
      exact spl_isSome_of_reachable g p n k hk
    · obtain ⟨hne, k, hk⟩ :=
        (mem_descendants_iff g p n).mp (Finset.mem_filter.mp h).1
      exact spl_isSome_of_reachable g p n k hk
  have hwith : (((g.descendants p).filter (fun n =>
        dget (g.nodeAttrs n) "node_type" = some (Value.str "research_article")) ∪
      (g.descendants p).filter (fun n =>
        dget (g.nodeAttrs n) "node_type" = some (Value.str "clinical_trial"))).filter
      (fun n => (g.shortest_path_length p n).isSome)) = researchReach g p := by
    show (researchReach g p).filter
      (fun n => (g.shortest_path_length p n).isSome) = researchReach g p
    exact Finset.filter_true_of_mem hsome
  unfold analyze_graph_connectivity
  rw [hbeq, hpat]
  simp only [Bool.false_eq_true, if_false]
  dsimp only [avgDepthOf]
  rw [hwith]

/-- Counterexample graph for C8: distances from the patient to the three
research articles are 2, 1 and 1, whose mean 4/3 is not representable in
two decimals. -/
def exGraphC8 : Graph :=
  { nodes := [("P1", [("node_type", Value.str "patient"), ("label", Value.str "P")]),
              ("C", [("node_type", Value.str "condition"), ("label", Value.str "C")]),
              ("A1", [("node_type", Value.str "research_article"), ("label", Value.str "A1")]),
              ("A2", [("node_type", Value.str "research_article"), ("label", Value.str "A2")]),
              ("A3", [("node_type", Value.str "research_article"), ("label", Value.str "A3")])],
    edges := [("P1", "C", []), ("C", "A1", []), ("P1", "A2", []), ("P1", "A3", [])] }

/-- C8 (counterexample): the arithmetic mean of the shortest path lengths
is 4/3, but the reported `average_research_depth` is `round(4/3, 2)` =
1.33 ≠ 4/3. -/
theorem analyze_depth_rounded :
    (((researchReach exGraphC8 "P1").sum
        (fun n => (exGraphC8.shortest_path_length "P1" n).getD 0) : ℚ) /
      ((researchReach exGraphC8 "P1").card : ℚ) = 4/3) ∧
    avgDepthOf (analyze_graph_connectivity exGraphC8) = 133/100 ∧
    (133 : ℚ)/100 ≠ 4/3 := by
  have h1 : (researchReach exGraphC8 "P1").sum
      (fun n => (exGraphC8.shortest_path_length "P1" n).getD 0) = 4 := by decide
  have h2 : (researchReach exGraphC8 "P1").card = 3 := by decide
  have havg := analyze_avg_eq exGraphC8 "P1" [] (by decide) (by decide)
  rw [← Nat.cast_sum, h1, h2] at havg
  refine ⟨?_, ?_, by norm_num⟩
  · rw [← Nat.cast_sum, h1, h2]
    norm_num
  · rw [havg]
    norm_num [round2, roundHalfEven]

/-- C8: on a graph whose first patient node is `p`, the analysis succeeds
and reports as `average_research_depth` the two-decimal rounding of the
arithmetic mean, over the research-article and clinical-trial nodes with a
directed path from `p` (each of which has a shortest path length that is
the least length of any directed path), of those shortest path lengths;
nodes without a path are excluded and the mean defaults to `0` when the
set is empty. -/
theorem analyze_connectivity_research_depth (g : Graph) (p : String)
    (rest : List String) (hn : g.numNodes ≠ 0)
    (hpat : patientNodes g = p :: rest) :
    (∃ r, analyze_graph_connectivity g = AnalyzeOut.ok r) ∧
    (∀ n, n ∈ researchReach g p ↔
      ((dget (g.nodeAttrs n) "node_type" = some (Value.str "research_article") ∨
        dget (g.nodeAttrs n) "node_type" = some (Value.str "clinical_trial")) ∧
       n ≠ p ∧ ∃ k, kpath g.succs k p n)) ∧
    (∀ n ∈ researchReach g p, ∃ dn,
      g.shortest_path_length p n = some dn ∧ kpath g.succs dn p n ∧
      ∀ m, m < dn → ¬ kpath g.succs m p n) ∧
    avgDepthOf (analyze_graph_connectivity g) =
      round2 (if (researchReach g p).card == 0 then 0
        else ((researchReach g p).sum
            (fun n => (g.shortest_path_length p n).getD 0) : ℚ) /
          ((researchReach g p).card : ℚ)) := by
  have hbeq : (g.numNodes == 0) = false := beq_eq_false_iff_ne.mpr hn
  have hchar : ∀ n, n ∈ researchReach g p ↔
      ((dget (g.nodeAttrs n) "node_type" = some (Value.str "research_article") ∨
        dget (g.nodeAttrs n) "node_type" = some (Value.str "clinical_trial")) ∧
       n ≠ p ∧ ∃ k, kpath g.succs k p n) := by
    intro n
    unfold researchReach
    simp only [Finset.mem_union, Finset.mem_filter, mem_descendants_iff]
    tauto
  have hsome : ∀ n ∈ researchReach g p, (g.shortest_path_length p n).isSome := by
    intro n hn'
    obtain ⟨hty, hne, k, hk⟩ := (hchar n).mp hn'
    exact spl_isSome_of_reachable g p n k hk
  have hwith : (((g.descendants p).filter (fun n =>
        dget (g.nodeAttrs n) "node_type" = some (Value.str "research_article")) ∪
      (g.descendants p).filter (fun n =>
        dget (g.nodeAttrs n) "node_type" = some (Value.str "clinical_trial"))).filter
      (fun n => (g.shortest_path_length p n).isSome)) = researchReach g p := by
    show (researchReach g p).filter
      (fun n => (g.shortest_path_length p n).isSome) = researchReach g p
    exact Finset.filter_true_of_mem hsome
  refine ⟨?_, hchar, ?_, ?_⟩
  · unfold analyze_graph_connectivity
    rw [hbeq, hpat]
    exact ⟨_, rfl⟩
  · intro n hn'
    have hs := hsome n hn'
    obtain ⟨dn, hdn⟩ := Option.isSome_iff_exists.mp hs
    obtain ⟨h1, h2⟩ := spl_characterization g p n dn hdn
    exact ⟨dn, hdn, h1, h2⟩
  · exact analyze_avg_eq g p rest hn hpat

/-- Witness graph for C8: a patient, one condition, one article at
distance 2. -/
def wGraphC8 : Graph :=
  { nodes := [("P1", [("node_type", Value.str "patient"), ("label", Value.str "Patient")]),
              ("C1", [("node_type", Value.str "condition"), ("label", Value.str "Cond")]),
              ("A1", [("node_type", Value.str "research_article"), ("label", Value.str "Art")])],
    edges := [("P1", "C1", []), ("C1", "A1", [])] }

theorem analyze_connectivity_research_depth_witness :
    wGraphC8.numNodes ≠ 0 ∧ patientNodes wGraphC8 = "P1" :: [] ∧
    ((∃ r, analyze_graph_connectivity wGraphC8 = AnalyzeOut.ok r) ∧
     (∀ n, n ∈ researchReach wGraphC8 "P1" ↔
       ((dget (wGraphC8.nodeAttrs n) "node_type" =
           some (Value.str "research_article") ∨
         dget (wGraphC8.nodeAttrs n) "node_type" =
           some (Value.str "clinical_trial")) ∧
        n ≠ "P1" ∧ ∃ k, kpath wGraphC8.succs k "P1" n)) ∧
     (∀ n ∈ researchReach wGraphC8 "P1", ∃ dn,
       wGraphC8.shortest_path_length "P1" n = some dn ∧
       kpath wGraphC8.succs dn "P1" n ∧
       ∀ m, m < dn → ¬ kpath wGraphC8.succs m "P1" n) ∧
     avgDepthOf (analyze_graph_connectivity wGraphC8) =
       round2 (if (researchReach wGraphC8 "P1").card == 0 then 0
         else ((researchReach wGraphC8 "P1").sum
             (fun n => (wGraphC8.shortest_path_length "P1" n).getD 0) : ℚ) /
           ((researchReach wGraphC8 "P1").card : ℚ))) :=
  ⟨by decide, by decide,
    analyze_connectivity_research_depth wGraphC8 "P1" [] (by decide) (by decide)⟩

end PatientMap
